import Mathlib

/-!
Verification of the formscanner pre-processor's alignment pipeline.

The development shallowly embeds the two alignment scripts
`src/pre-processor/preprocess.py` and `src/pre-processor/align_omr_axisfit.py`.
Conventions used throughout:

* Python/NumPy floating-point values are embedded as exact rationals (`ℚ`)
  where the computation is closed under rational arithmetic, and as real
  numbers (`ℝ`) where the source computes square roots or trigonometric
  functions (`np.hypot`, `np.arctan2`, `np.degrees`).  Decimal literals of
  the source (`0.08`, `0.3`, ...) are embedded as the exact decimal
  rationals they denote.
* OpenCV and NumPy primitives that the repository merely calls
  (`cv2.Canny`, `cv2.HoughLines(P)`, `cv2.findContours`/`boundingRect`,
  `cv2.matchTemplate`, `cv2.GaussianBlur`, `cv2.getPerspectiveTransform`,
  `cv2.getAffineTransform`) are external detectors/solvers: their results
  (line lists, segment lists, bounding rectangles, score matrices, fitted
  matrices) are inputs of the embedded functions.  Everything the
  repository computes *from* those results is embedded faithfully.
* Python `int()` (truncation toward zero) is `pyInt`; Python slicing
  `a[y0:y1]` is `(List.drop y0) ∘ (List.take (y1-y0))` on row lists, which
  agrees with Python for every pair of bounds.
* Comparisons of Euclidean lengths (`np.hypot`) against each other are in
  two places embedded as comparisons of squared lengths; `Real.sqrt` is
  strictly monotone on nonnegative numbers, so this is exactly equivalent
  and keeps the definitions executable.  Each such place carries a comment.
-/

namespace FormScanner

/-- Python `int()` on a rational: truncation toward zero. -/
def pyInt (q : ℚ) : ℤ := if 0 ≤ q then ⌊q⌋ else -⌊-q⌋

/-- `clamp` from `align_omr_axisfit.py` line 58: `max(lo, min(hi, v))`. -/
def clamp (v lo hi : ℚ) : ℚ := max lo (min hi v)

/-- Real-valued variant of `clamp`, used where the clamped value is a
length ratio computed with `np.hypot`. -/
noncomputable def clampR (v lo hi : ℝ) : ℝ := max lo (min hi v)

/-- `np.hypot dx dy`: the Euclidean length `sqrt (dx² + dy²)`. -/
noncomputable def hypotR (dx dy : ℝ) : ℝ := Real.sqrt (dx ^ 2 + dy ^ 2)

/-- A 2×3 affine matrix `[[a, b, tx], [c, d, ty]]`. -/
structure Mat23 (α : Type) where
  a : α
  b : α
  tx : α
  c : α
  d : α
  ty : α

/-- A 3×3 perspective (homography) matrix. -/
structure Mat3 where
  m00 : ℚ
  m01 : ℚ
  m02 : ℚ
  m10 : ℚ
  m11 : ℚ
  m12 : ℚ
  m20 : ℚ
  m21 : ℚ
  m22 : ℚ

/-- `cv2.perspectiveTransform` on a single point: apply the homography and
divide by the projective coordinate.  (In the rational embedding a zero
denominator yields `0` where NumPy would produce `inf`/`nan`; no theorem
below depends on that corner.) -/
def perspPt (H : Mat3) (p : ℚ × ℚ) : ℚ × ℚ :=
  let w := H.m20 * p.1 + H.m21 * p.2 + H.m22
  ((H.m00 * p.1 + H.m01 * p.2 + H.m02) / w,
   (H.m10 * p.1 + H.m11 * p.2 + H.m12) / w)

/-- Squared Euclidean distance between two points. -/
def distSq (p q : ℚ × ℚ) : ℚ := (p.1 - q.1) ^ 2 + (p.2 - q.2) ^ 2

/-- `H_is_reasonable` (`preprocess.py` lines 229–243).  The four canvas
corners `[0,0],[W,0],[0,H],[W,H]` are mapped through `H`; the check
requires orientation (mean top-corner y strictly below mean bottom-corner
y, mean left-corner x strictly left of mean right-corner x) and side
balance (`max(w1,w2)/max(1.0,min(w1,w2)) ≤ 2.2`, same for heights).

The side-balance comparison of the source compares Euclidean lengths
`w1 = hypot(...)`; here it is embedded on squared lengths:
`max(w1,w2)/max(1,min(w1,w2)) > 2.2  ↔  max(w1²,w2²) > (2.2)²·max(1,min(w1²,w2²))`
because both sides are nonnegative, `sqrt` is strictly monotone and
`max(1,sqrt s)² = max(1,s)` for `s ≥ 0`.  `np.isfinite(H).all()` is
always true in the rational embedding (rationals carry no `inf`/`nan`),
so it imposes no condition here. -/
def H_is_reasonable (H : Mat3) (W Ht : ℚ) : Bool :=
  let c0 := perspPt H (0, 0)
  let c1 := perspPt H (W, 0)
  let c2 := perspPt H (0, Ht)
  let c3 := perspPt H (W, Ht)
  let top_y := (c0.2 + c1.2) / 2
  let bot_y := (c2.2 + c3.2) / 2
  let left_x := (c0.1 + c2.1) / 2
  let right_x := (c1.1 + c3.1) / 2
  if ¬ (top_y < bot_y ∧ left_x < right_x) then false
  else
    let w1 := distSq c0 c1
    let w2 := distSq c2 c3
    let h1 := distSq c0 c2
    let h2 := distSq c1 c3
    if (121 / 25 : ℚ) * max 1 (min w1 w2) < max w1 w2 then false
    else if (121 / 25 : ℚ) * max 1 (min h1 h2) < max h1 h2 then false
    else true

/-- The four fiducials of `preprocess.py` (dataclass `FourFids`). -/
structure FourFids where
  top_dash : ℚ × ℚ
  bottom_dash : ℚ × ℚ
  top_line_right : ℚ × ℚ
  thin_line_right : ℚ × ℚ

/-- Normalized fiducials (dataclass `FourFidsNorm`). -/
structure FourFidsNorm where
  top_dash : ℚ × ℚ
  bottom_dash : ℚ × ℚ
  top_line_right : ℚ × ℚ
  thin_line_right : ℚ × ℚ

/-- `getSimilarity` (`preprocess.py` lines 250–257): uniform scale from the
vertical dash span, translation anchored at the top dash.
`R*np.array([[sX],[sY]])` broadcasts the identity to `[[sX,0],[0,sY]]`. -/
def getSimilarity (src dst : FourFids) : Mat23 ℚ :=
  let sY := (dst.bottom_dash.2 - dst.top_dash.2) /
      max (1 / 1000000) (src.bottom_dash.2 - src.top_dash.2)
  let sX := sY
  { a := sX, b := 0, tx := dst.top_dash.1 - sX * src.top_dash.1,
    c := 0, d := sY, ty := dst.top_dash.2 - sY * src.top_dash.2 }

/-! ### Images and warping

An image is a height, a width and a pixel function; pixel values live in
the same ordered field as coordinates (one channel; the warps act
channel-wise in the source).  `warpAffine`/`warpPerspective` resample the
source through the inverse map with bilinear interpolation, exactly the
`INTER_LINEAR` behaviour; the border mode fills out-of-range taps by edge
replication or with a constant, matching `BORDER_REPLICATE` and
`BORDER_CONSTANT`. -/

/-- An image: `h × w` pixels. -/
structure Img (α : Type) where
  h : ℕ
  w : ℕ
  px : ℕ → ℕ → α

/-- Border handling of a warp. -/
inductive Border (α : Type) where
  | replicate : Border α
  | constant : α → Border α

/-- Read a pixel at integer coordinates, applying the border mode outside
the image. -/
def borderPx {α : Type} (img : Img α) (bd : Border α) (x y : ℤ) : α :=
  if 0 ≤ x ∧ x < (img.w : ℤ) ∧ 0 ≤ y ∧ y < (img.h : ℤ) then
    img.px x.toNat y.toNat
  else
    match bd with
    | .replicate =>
        img.px (max 0 (min x ((img.w : ℤ) - 1))).toNat
               (max 0 (min y ((img.h : ℤ) - 1))).toNat
    | .constant v => v

/-- Bilinear sample at fractional source coordinates (`INTER_LINEAR`). -/
def sampleBilinear {α : Type} [LinearOrderedField α] [FloorRing α]
    (img : Img α) (bd : Border α) (sx sy : α) : α :=
  let x0 : ℤ := ⌊sx⌋
  let y0 : ℤ := ⌊sy⌋
  let fx : α := sx - (x0 : α)
  let fy : α := sy - (y0 : α)
  (1 - fx) * (1 - fy) * borderPx img bd x0 y0 +
    fx * (1 - fy) * borderPx img bd (x0 + 1) y0 +
    (1 - fx) * fy * borderPx img bd x0 (y0 + 1) +
    fx * fy * borderPx img bd (x0 + 1) (y0 + 1)

/-- `cv2.warpAffine(img, M, (dw, dh))`: the output canvas is exactly
`dh × dw`; each destination pixel samples the source at the inverse
affine image of its coordinates (cv2 inverts `M` unless
`WARP_INVERSE_MAP` is given; a singular `M` yields the degenerate
zero map, a corner no theorem depends on). -/
def warpAffine {α : Type} [LinearOrderedField α] [FloorRing α]
    (img : Img α) (M : Mat23 α) (dw dh : ℕ) (bd : Border α) : Img α :=
  { h := dh, w := dw,
    px := fun x y =>
      let det := M.a * M.d - M.b * M.c
      let sx := (M.d * ((x : α) - M.tx) - M.b * ((y : α) - M.ty)) / det
      let sy := (M.a * ((y : α) - M.ty) - M.c * ((x : α) - M.tx)) / det
      sampleBilinear img bd sx sy }

/-- Inverse homography image of a destination point (adjugate over
determinant, then the projective division), as `cv2.warpPerspective`
computes it. -/
def perspInvPt (H : Mat3) (x y : ℚ) : ℚ × ℚ :=
  let a00 := H.m11 * H.m22 - H.m12 * H.m21
  let a01 := H.m02 * H.m21 - H.m01 * H.m22
  let a02 := H.m01 * H.m12 - H.m02 * H.m11
  let a10 := H.m12 * H.m20 - H.m10 * H.m22
  let a11 := H.m00 * H.m22 - H.m02 * H.m20
  let a12 := H.m02 * H.m10 - H.m00 * H.m12
  let a20 := H.m10 * H.m21 - H.m11 * H.m20
  let a21 := H.m01 * H.m20 - H.m00 * H.m21
  let a22 := H.m00 * H.m11 - H.m01 * H.m10
  let u := a00 * x + a01 * y + a02
  let v := a10 * x + a11 * y + a12
  let w := a20 * x + a21 * y + a22
  (u / w, v / w)

/-- `cv2.warpPerspective(img, H, (dw, dh))`: output canvas exactly
`dh × dw`, sources read through the inverse homography. -/
def warpPerspective (img : Img ℚ) (H : Mat3) (dw dh : ℕ) (bd : Border ℚ) :
    Img ℚ :=
  { h := dh, w := dw,
    px := fun x y =>
      let s := perspInvPt H (x : ℚ) (y : ℚ)
      sampleBilinear img bd s.1 s.2 }

/-- Which transform model `main` ends up warping with. -/
inductive WarpMode where
  | homography : WarpMode
  | affine : WarpMode
  | similarity : WarpMode
deriving DecidableEq

/-- Steps 3 and 4 of the per-page loop of `preprocess.py` `main`
(lines 358–375): fit/choose the transform and warp.

* `Hproj` is `getH(fids, templ_f)` and `A` is `getA(fids, templ_f)` —
  both are produced by the external cv2 solvers
  (`getPerspectiveTransform` / `getAffineTransform`) from the fiducial
  correspondences, so they enter as inputs.
* `allowHomography` mirrors `args.allow_homography` (declared at lines
  289–291).  The body of `main` never consults it: the homography is
  fitted and checked unconditionally at lines 359–360, which is why the
  parameter is unused here.
* Step 4 (lines 371–375) re-warps with `getSimilarity` when
  `min(warped.shape[:2]) < min(Ht,Wt)*0.3`. -/
def mainStep34 (allowHomography : Bool) (Hproj : Mat3) (A : Mat23 ℚ)
    (imgRot : Img ℚ) (fids templF : FourFids) (Wt Ht : ℕ) :
    WarpMode × Img ℚ :=
  let _ := allowHomography
  let step3 : WarpMode × Img ℚ :=
    if H_is_reasonable Hproj (imgRot.w : ℚ) (imgRot.h : ℚ) then
      (WarpMode.homography, warpPerspective imgRot Hproj Wt Ht .replicate)
    else
      (WarpMode.affine, warpAffine imgRot A Wt Ht .replicate)
  let warped := step3.2
  if (min warped.h warped.w : ℚ) < (min Ht Wt : ℚ) * (3 / 10) then
    (WarpMode.similarity,
     warpAffine imgRot (getSimilarity fids templF) Wt Ht .replicate)
  else step3

/-! ### Stable sorting

Python's `list.sort(key=...)` is a stable sort.  A stable sort with
respect to a fixed total preorder is unique as a function of the input
list, so any stable sorting algorithm computes exactly the same list;
we use insertion sort (`insertLe` keeps an incumbent `y` before the new
element `x` whenever `le y x`, so earlier elements stay first on ties),
which is structurally recursive and hence evaluates in the kernel. -/

/-- Insert `x` after every already-placed element `y` with `le y x`. -/
def insertLe {α : Type} (le : α → α → Bool) (x : α) : List α → List α
  | [] => [x]
  | y :: l => if le y x then y :: insertLe le x l else x :: y :: l

/-- Stable sort by the Boolean preorder `le` (Python `list.sort`). -/
def stableSort {α : Type} (le : α → α → Bool) (l : List α) : List α :=
  l.foldl (fun acc x => insertLe le x acc) []

/-! ### `np.argmin` and row means -/

/-- Mean of one pixel row (`row.mean()`). -/
def rowMean (r : List ℚ) : ℚ := r.sum / (r.length : ℚ)

/-- Fold step for `np.argmin`: scan the tail keeping the first position
of the least value; the state is (index of incumbent, its value). -/
def argminAux : List ℚ → ℕ → ℕ × ℚ → ℕ × ℚ
  | [], _, best => best
  | x :: xs, i, (bi, bv) =>
      if x < bv then argminAux xs (i + 1) (i, x)
      else argminAux xs (i + 1) (bi, bv)

/-- `np.argmin` with its value: the first index attaining the minimum. -/
def argminP (l : List ℚ) : ℕ × ℚ :=
  match l with
  | [] => (0, 0)
  | x :: xs => argminAux xs 1 (0, x)

/-- `np.argmin`: index of the first minimum (0 on the empty list, where
NumPy raises — no embedded call path reaches it). -/
def argminIdx (l : List ℚ) : ℕ := (argminP l).1

/-! ### preprocess.py: fiducial detection -/

/-- A `cv2.boundingRect` result for one contour (`x, y, w, h`). -/
structure Rect where
  x : ℕ
  y : ℕ
  w : ℕ
  h : ℕ
deriving DecidableEq

/-- The ROI's left bound `max(0, int((xcf - xhf) * W))`. -/
def dashX0 (W : ℕ) (xcf xhf : ℚ) : ℤ := max 0 (pyInt ((xcf - xhf) * (W : ℚ)))

/-- The ROI's right bound `min(W, int((xcf + xhf) * W))`. -/
def dashX1 (W : ℕ) (xcf xhf : ℚ) : ℤ :=
  min (W : ℤ) (pyInt ((xcf + xhf) * (W : ℚ)))

/-- The ROI's top bound `max(0, int(ytf * H))`. -/
def dashY0 (H : ℕ) (ytf : ℚ) : ℤ := max 0 (pyInt (ytf * (H : ℚ)))

/-- The ROI's bottom bound `min(H, int(ybf * H))`. -/
def dashY1 (H : ℕ) (ybf : ℚ) : ℤ := min (H : ℤ) (pyInt (ybf * (H : ℚ)))

/-- The dash candidates of `detect_dashes_tight` (lines 166–175): one
`(cy, (cx, cy))` triple per bounding rectangle that passes the relative
area filter (`area ≥ 0.001 * areaR`) and the aspect-ratio filter
(`0.4 ≤ w/h ≤ 2.5`; `ar = 0` when `h = 0`, which fails the filter). -/
def dashCands (H W : ℕ) (xcf xhf ytf ybf : ℚ) (rects : List Rect) :
    List (ℚ × ℚ × ℚ) :=
  let roiH : ℤ := max 0 (dashY1 H ybf - dashY0 H ytf)
  let roiW : ℤ := max 0 (dashX1 W xcf xhf - dashX0 W xcf xhf)
  let areaR : ℚ := (roiH : ℚ) * (roiW : ℚ)
  rects.filterMap fun r =>
    let area : ℚ := (r.w : ℚ) * (r.h : ℚ)
    if area < (1 / 1000) * areaR then none
    else
      let ar : ℚ := if r.h = 0 then 0 else (r.w : ℚ) / (r.h : ℚ)
      if 4 / 10 ≤ ar ∧ ar ≤ 5 / 2 then
        some ((r.y : ℚ) + (r.h : ℚ) / 2,
              ((r.x : ℚ) + (r.w : ℚ) / 2, (r.y : ℚ) + (r.h : ℚ) / 2))
      else none

/-- `detect_dashes_tight` (`preprocess.py` lines 158–187).  The ROI
bounds are computed from the normalized strip; the contour bounding
rectangles found by cv2 inside the ROI enter as the input `rects`
(coordinates relative to the ROI).  Candidates (`dashCands`) are sorted
by their center y (`cand.sort` is stable), and the topmost/bottommost
centers are returned with their x replaced by the common average — or,
with no candidate, the deterministic ROI-extreme fallback. -/
def detect_dashes_tight (H W : ℕ) (xcf xhf ytf ybf : ℚ)
    (rects : List Rect) : (ℚ × ℚ) × (ℚ × ℚ) :=
  let x0 : ℤ := dashX0 W xcf xhf
  let x1 : ℤ := dashX1 W xcf xhf
  let y0 : ℤ := dashY0 H ytf
  let y1 : ℤ := dashY1 H ybf
  let cand := dashCands H W xcf xhf ytf ybf rects
  if cand = [] then
    let top : ℚ × ℚ :=
      ((x0 : ℚ) + (1 / 2) * ((x1 : ℚ) - (x0 : ℚ)),
       (y0 : ℚ) + (5 / 100) * ((y1 : ℚ) - (y0 : ℚ)))
    let bot : ℚ × ℚ :=
      ((x0 : ℚ) + (1 / 2) * ((x1 : ℚ) - (x0 : ℚ)),
       (y0 : ℚ) + (95 / 100) * ((y1 : ℚ) - (y0 : ℚ)))
    (top, bot)
  else
    let cs := stableSort (fun a b => decide (a.1 ≤ b.1)) cand
    let t := cs.headD (0, (0, 0))
    let bo := cs.getLastD (0, (0, 0))
    let topx := t.2.1 + (x0 : ℚ)
    let topy := t.2.2 + (y0 : ℚ)
    let botx := bo.2.1 + (x0 : ℚ)
    let boty := bo.2.2 + (y0 : ℚ)
    let mx := (topx + botx) / 2
    ((mx, topy), (mx, boty))

/-- A `cv2.HoughLinesP` segment (`x1, y1, x2, y2`, integer pixels). -/
structure SegZ where
  x1 : ℤ
  y1 : ℤ
  x2 : ℤ
  y2 : ℤ
deriving DecidableEq

/-- `avg_y_of_longest_horizontal` (`preprocess.py` lines 140–156).
`GaussianBlur`, `Canny` and `HoughLinesP` are cv2 calls: the blurred
band (used only by the fallback's row means) and the detected segments
enter as inputs.  Among segments with `|slope| < 0.08` the longest is
kept; lengths `np.hypot(dx, dy)` are compared through their squares,
which is equivalent since `sqrt` is strictly monotone on nonnegative
numbers and every candidate beats the initial `-1`.  The threshold,
gap and minimum-length parameters of the source configure only the
external Hough call and are not used past it. -/
def avg_y_of_longest_horizontal (blur : List (List ℚ))
    (lines : Option (List SegZ)) : ℚ :=
  let fallback : ℚ := (argminIdx (blur.map rowMean) : ℚ)
  match lines with
  | none => fallback
  | some ls =>
    let best := ls.foldl
      (fun (acc : Option ((ℚ × ℚ) × ℚ)) s =>
        if s.x2 = s.x1 then acc
        else
          let slope := |((s.y2 : ℚ) - (s.y1 : ℚ)) / ((s.x2 : ℚ) - (s.x1 : ℚ))|
          if slope < 8 / 100 then
            let Lsq := ((s.x2 : ℚ) - (s.x1 : ℚ)) ^ 2 + ((s.y2 : ℚ) - (s.y1 : ℚ)) ^ 2
            match acc with
            | none => some (((s.y1 : ℚ), (s.y2 : ℚ)), Lsq)
            | some (b, bL) => if bL < Lsq then some (((s.y1 : ℚ), (s.y2 : ℚ)), Lsq)
                              else some (b, bL)
          else acc)
      none
    match best with
    | some (b, _) => (b.1 + b.2) / 2
    | none => fallback

/-- `detect_line_at_right` (`preprocess.py` lines 189–196): slice the
horizontal band, find the dominant horizontal line's mean y inside it and
report the point at `x = W - 10`.  The band's blurred rows and the Hough
segments of the band are the external inputs. -/
def detect_line_at_right (H W : ℕ) (ycf bhf : ℚ)
    (blur : List (List ℚ)) (lines : Option (List SegZ)) : ℚ × ℚ :=
  let y0 : ℤ := pyInt (max 0 ((ycf - bhf) * (H : ℚ)))
  let y_in := avg_y_of_longest_horizontal blur lines
  let y : ℚ := (y0 : ℚ) + y_in
  ((W : ℚ) - 10, y)

/-- `detect_four_on_image` (`preprocess.py` lines 207–221): anchored
detection of the four fiducials, then the ordering swap on the two line
landmarks. -/
def detect_four_on_image (H W : ℕ) (tpl : FourFidsNorm) (tight : ℚ)
    (rects : List Rect) (blurTop blurThin : List (List ℚ))
    (linesTop linesThin : Option (List SegZ)) : FourFids :=
  let x_center := tpl.top_dash.1
  let x_hw := max (2 / 100) tight
  let y_top := max (2 / 100) (tpl.top_dash.2 - 12 / 100)
  let y_bot := min (98 / 100) (tpl.bottom_dash.2 + 12 / 100)
  let dashes := detect_dashes_tight H W x_center x_hw y_top y_bot rects
  let band_hw := max (15 / 1000) tight
  let tlr := detect_line_at_right H W tpl.top_line_right.2 band_hw blurTop linesTop
  let thr := detect_line_at_right H W tpl.thin_line_right.2 band_hw blurThin linesThin
  let ordered := if thr.2 < tlr.2 then (thr, tlr) else (tlr, thr)
  { top_dash := dashes.1, bottom_dash := dashes.2,
    top_line_right := ordered.1, thin_line_right := ordered.2 }

/-! ### preprocess.py: coarse deskew -/

/-- `np.arctan2` — the four-quadrant arctangent, with NumPy's conventions
on the axes (`atan2(0, x<0) = π`, `atan2(0, 0) = 0`). -/
noncomputable def np_atan2 (y x : ℝ) : ℝ :=
  if 0 < x then Real.arctan (y / x)
  else if x < 0 then
    (if 0 ≤ y then Real.arctan (y / x) + Real.pi
     else Real.arctan (y / x) - Real.pi)
  else if 0 < y then Real.pi / 2
  else if y < 0 then -(Real.pi / 2)
  else 0

/-- `np.clip x lo hi` = `minimum(hi, maximum(lo, x))`. -/
noncomputable def npClip (x lo hi : ℝ) : ℝ := min (max x lo) hi

/-- The theta-selection loop of `coarse_deskew_by_header`
(`preprocess.py` lines 122–130): among the Hough lines prefer the theta
nearest horizontal, weighting by `1/(1e-6 + dev)`; strict improvement
replaces the incumbent, so the first line always beats the initial
weight `0`. -/
noncomputable def bestThetaW (l : List (ℝ × ℝ)) : Option ℝ × ℝ :=
  l.foldl
    (fun (st : Option ℝ × ℝ) rt =>
      let dev := min |rt.2 - 0| |rt.2 - Real.pi|
      let w := 1 / (1 / 1000000 + dev)
      if st.2 < w then (some rt.2, w) else st)
    (none, 0)

/-- The angle formula of `coarse_deskew_by_header` lines 131–134 for the
selected theta, including the `np.clip` to `±max_rotate`. -/
noncomputable def rawAngleDeg (theta : ℝ) : ℝ :=
  let delta := min theta (Real.pi - theta)
  if theta < Real.pi / 2 then -(delta * 180 / Real.pi) else delta * 180 / Real.pi

/-- The rotation angle `coarse_deskew_by_header` (`preprocess.py` lines
115–137) derives and applies: `0` when `cv2.HoughLines` found nothing
(`lines is None`), otherwise the clipped angle of the best theta.  The
Hough result is the external input. -/
noncomputable def coarse_deskew_angle (lines : Option (List (ℝ × ℝ)))
    (max_rotate : ℝ) : ℝ :=
  match lines with
  | none => 0
  | some l =>
    match (bestThetaW l).1 with
    | none => 0
    | some θ => npClip (rawAngleDeg θ) (-max_rotate) max_rotate

/-! ### align_omr_axisfit.py: header-line detection and deskew -/

/-- A segment of `detect_header_line`'s cluster stage, with the band
offset already added to the y coordinates (`preprocess` of the source at
line 81). -/
structure SegQ where
  x1 : ℚ
  y1 : ℚ
  x2 : ℚ
  y2 : ℚ
deriving DecidableEq

/-- One slope/intercept cluster (`detect_header_line` lines 88–100): the
seed's `m` and `b` label the cluster; members accumulate in `segs`.
(The source also appends to `m_list`/`b_list`, which nothing reads.) -/
structure Cluster where
  m : ℚ
  b : ℚ
  segs : List SegQ
deriving DecidableEq

/-- Scan the cluster list for the first cluster whose seed
slope/intercept is within `(0.03, 15)` of the segment's and append the
segment to it; reaching the end opens a new cluster. -/
def insertSegGo : List Cluster → SegQ → ℚ → ℚ → List Cluster
  | [], s, m, b => [{ m := m, b := b, segs := [s] }]
  | c :: cs, s, m, b =>
      if |m - c.m| < 3 / 100 ∧ |b - c.b| < 15 then
        { m := c.m, b := c.b, segs := c.segs ++ [s] } :: cs
      else c :: insertSegGo cs s m b

/-- Add one segment to the first matching cluster, else open a new
cluster (lines 89–100).  The per-segment slope uses the source's
`(x2 - x1) + 1e-6` denominator. -/
def insertSeg (cs : List Cluster) (s : SegQ) : List Cluster :=
  let m := (s.y2 - s.y1) / ((s.x2 - s.x1) + 1 / 1000000)
  let b := s.y1 - m * s.x1
  insertSegGo cs s m b

/-- Total `np.hypot` length of a cluster's segments (line 104–106). -/
noncomputable def clusterLsum (c : Cluster) : ℝ :=
  (c.segs.map fun s =>
    Real.sqrt (((s.x2 - s.x1 : ℚ) : ℝ) ^ 2 + ((s.y2 - s.y1 : ℚ) : ℝ) ^ 2)).sum

/-- The cluster of greatest total length (lines 102–108): strict
improvement over the running `best_len`, starting from `-1`, so the
first cluster always wins the opening comparison. -/
noncomputable def bestCluster (cs : List Cluster) : Option Cluster × ℝ :=
  cs.foldl
    (fun (st : Option Cluster × ℝ) c =>
      if st.2 < clusterLsum c then (some c, clusterLsum c) else st)
    (none, -1)

/-- Closed form of `np.linalg.lstsq` for the two-column design
`[x, 1] @ [m, b] = y`: the usual slope/intercept when the x's vary;
when all x's are equal (`varx = 0`, rank-deficient design) the
minimum-norm least-squares solution that LAPACK's gelsd driver
returns, namely `(m, b) = ȳ/(x̄² + 1) · (x̄, 1)`. -/
def lstsqLine (pts : List (ℚ × ℚ)) : ℚ × ℚ :=
  let n : ℚ := (pts.length : ℚ)
  let sx := (pts.map Prod.fst).sum
  let sy := (pts.map Prod.snd).sum
  let sxx := (pts.map fun p => p.1 ^ 2).sum
  let sxy := (pts.map fun p => p.1 * p.2).sum
  let xbar := sx / n
  let ybar := sy / n
  let varx := sxx - n * xbar ^ 2
  let cov := sxy - n * xbar * ybar
  if varx = 0 then (xbar * ybar / (xbar ^ 2 + 1), ybar / (xbar ^ 2 + 1))
  else (cov / varx, ybar - (cov / varx) * xbar)

/-- Least element of a rational list (`min(xs)`; `0` on `[]`, which no
embedded call path reaches). -/
def minQ : List ℚ → ℚ
  | [] => 0
  | x :: xs => xs.foldl min x

/-- Greatest element of a rational list (`max(xs)`). -/
def maxQ : List ℚ → ℚ
  | [] => 0
  | x :: xs => xs.foldl max x

/-- The band's first row index, `int(H * 0.02)`. -/
def headerY0 (Hh : ℕ) : ℕ := (pyInt ((Hh : ℚ) * (2 / 100))).toNat

/-- The band's one-past-last row index, `int(H * 0.22)`. -/
def headerY1 (Hh : ℕ) : ℕ := (pyInt ((Hh : ℚ) * (22 / 100))).toNat

/-- The search band `gray[y0:y1, :]` as a row list. -/
def headerBand (Hh : ℕ) (gray : List (List ℚ)) : List (List ℚ) :=
  (gray.drop (headerY0 Hh)).take (headerY1 Hh - headerY0 Hh)

/-- The darkest-band-row fallback of `detect_header_line` (lines 70–73
and 83–86): the horizontal segment from `(10, y)` to `(W - 10, y)` at
the band row of least mean intensity. -/
def headerFallback (W Hh : ℕ) (gray : List (List ℚ)) :
    (ℚ × ℚ) × (ℚ × ℚ) :=
  let row := argminIdx ((headerBand Hh gray).map rowMean)
  let y : ℚ := (headerY0 Hh : ℚ) + (row : ℚ)
  ((10, y), ((W : ℚ) - 10, y))

/-- The near-horizontal segments kept by lines 75–81: drop `dx = 0`,
keep `|dy/dx| < 0.08`, shift y by the band offset. -/
def headerS (Hh : ℕ) (sl : List SegZ) : List SegQ :=
  sl.filterMap fun s =>
    if s.x2 = s.x1 then none
    else if |((s.y2 : ℚ) - (s.y1 : ℚ)) / ((s.x2 : ℚ) - (s.x1 : ℚ))| < 8 / 100 then
      some (SegQ.mk (s.x1 : ℚ) ((s.y1 : ℚ) + (headerY0 Hh : ℚ))
                    (s.x2 : ℚ) ((s.y2 : ℚ) + (headerY0 Hh : ℚ)))
    else none

/-- Lines 110–124: pool the best cluster's endpoints, least-squares fit
a line, evaluate it at the clamped extreme x's and order the two points
left-to-right. -/
def headerEndpoints (W : ℕ) (best : Cluster) : (ℚ × ℚ) × (ℚ × ℚ) :=
  let pts := best.segs.flatMap fun s => [(s.x1, s.y1), (s.x2, s.y2)]
  let xs := best.segs.flatMap fun s => [s.x1, s.x2]
  let mb := lstsqLine pts
  let xL := max 10 (minQ xs)
  let xR := min ((W : ℚ) - 10) (maxQ xs)
  let yL := mb.1 * xL + mb.2
  let yR := mb.1 * xR + mb.2
  if xR < xL then ((xR, yR), (xL, yL)) else ((xL, yL), (xR, yR))

/-- `detect_header_line` (`align_omr_axisfit.py` lines 61–124).  Inputs:
the image size, the gray rows (for the darkest-row fallback) and the
`cv2.HoughLinesP` result on the band's edge image (`None` or the segment
list, band-relative coordinates).  The function filters segments by
`|dy/dx| < 0.08` (skipping `dx = 0`), clusters them by slope/intercept,
least-squares fits the longest cluster and reports the fitted line's
endpoints; either fallback (no Hough result / no near-horizontal
segment) returns the darkest band row at `x = 10` and `x = W - 10`.
The inner `none` arm mirrors a state the source cannot reach (a
nonempty cluster list always yields a best cluster, since
`clusterLsum ≥ 0 > -1`). -/
noncomputable def detect_header_line (W Hh : ℕ) (gray : List (List ℚ))
    (segs : Option (List SegZ)) : (ℚ × ℚ) × (ℚ × ℚ) :=
  match segs with
  | none => headerFallback W Hh gray
  | some sl =>
    let S := headerS Hh sl
    if S = [] then headerFallback W Hh gray
    else
      match (bestCluster (S.foldl insertSeg [])).1 with
      | none => headerFallback W Hh gray
      | some best => headerEndpoints W best

/-- The angle (degrees) `deskew_by_header` (`align_omr_axisfit.py` lines
220–226) derives from a detected header line:
`np.degrees(np.arctan2(y2 - y1, x2 - x1))`.  The page is then rotated by
this amount (via `getRotationMatrix2D(center, -angle, 1.0)`). -/
noncomputable def deskewAngleDeg (L R : ℚ × ℚ) : ℝ :=
  np_atan2 ((R.2 - L.2 : ℚ) : ℝ) ((R.1 - L.1 : ℚ) : ℝ) * (180 / Real.pi)

/-- The deskew angle of the axis-fit pipeline as a function of the image
and the external Hough result. -/
noncomputable def axisfit_deskew_angle (W Hh : ℕ) (gray : List (List ℚ))
    (segs : Option (List SegZ)) : ℝ :=
  let p := detect_header_line W Hh gray segs
  deskewAngleDeg p.1 p.2

/-! ### align_omr_axisfit.py: dash detection by template matching -/

/-- One dash candidate of `detect_dash_top_bottom`: center x, center y
and the correlation score (`[rx + wT/2, ry + hT/2, res[ry, rx]]`). -/
structure Cand where
  x : ℚ
  y : ℚ
  score : ℚ
deriving DecidableEq

/-- `np.where(res >= t)` in row-major order, keeping the score:
`(ry, rx, res[ry, rx])`. -/
def resHits (res : List (List ℚ)) (t : ℚ) : List (ℕ × ℕ × ℚ) :=
  res.enum.flatMap fun rowp =>
    rowp.2.enum.filterMap fun cell =>
      if t ≤ cell.2 then some (rowp.1, cell.1, cell.2) else none

/-- The minimum-separation suppression loop of `detect_dash_top_bottom`
(lines 193–199): visit candidates in the given order, keep one when its
y is at least `sep` from every kept y, and stop as soon as more than 30
peaks are kept (the length test runs every iteration but can only change
after an append). -/
def nmsStep (sep : ℚ) (c : Cand) (keep : List Cand) : List Cand :=
  if keep.all fun k => decide (sep ≤ |c.y - k.y|) then keep ++ [c] else keep

def nmsGo (sep : ℚ) : List Cand → List Cand → List Cand
  | [], keep => keep
  | c :: rest, keep =>
      let keep' := nmsStep sep c keep
      if 30 < keep'.length then keep' else nmsGo sep rest keep'

/-- Candidates sorted by descending score
(`cand.sort(key=..., reverse=True)`, stable). -/
def sortScoreDesc (l : List Cand) : List Cand :=
  stableSort (fun a b => decide (b.score ≤ a.score)) l

/-- Kept peaks sorted by ascending y (`keep.sort(key=lambda c: c[1])`). -/
def sortByY (l : List Cand) : List Cand :=
  stableSort (fun a b => decide (a.y ≤ b.y)) l

/-- The minimum peak separation `max(6, int(H * min_sep_frac))`. -/
def sepOf (H : ℕ) (min_sep_frac : ℚ) : ℚ :=
  max 6 ((pyInt ((H : ℚ) * min_sep_frac) : ℤ) : ℚ)

/-- The kept peaks of `detect_dash_top_bottom` for a given hit list. -/
def keepOf (H : ℕ) (min_sep_frac : ℚ) (cand : List Cand) : List Cand :=
  nmsGo (sepOf H min_sep_frac) (sortScoreDesc cand) []

/-- The candidate list `detect_dash_top_bottom` builds from the
correlation surface: threshold at `match_thresh`, retry at 90 % of it
when empty (lines 182–187). -/
def candListOf (res : List (List ℚ)) (match_thresh : ℚ) (hT wT : ℕ) :
    List Cand :=
  let hits := resHits res match_thresh
  let hits := if hits = [] then resHits res (match_thresh * (9 / 10)) else hits
  hits.map fun h => { x := (h.2.1 : ℚ) + (wT : ℚ) / 2,
                      y := (h.1 : ℚ) + (hT : ℚ) / 2,
                      score := h.2.2 }

/-- `detect_dash_top_bottom` (`align_omr_axisfit.py` lines 167–209).
Inputs: image size, the strip fractions/thresholds, the dash patch's
shape (`none` for a missing patch) and the `cv2.matchTemplate` score
surface `res` on the strip.  Degenerate patch or no hit at either
threshold returns the deterministic fallback (the candidate list built
by `candListOf` is empty exactly when the source's hit list is);
otherwise the candidates are score-sorted, suppressed by minimum
y-separation (`keepOf`), y-sorted, and the extreme survivors are
returned with the averaged common x. -/
def detect_dash_top_bottom (H W : ℕ)
    (x_left_frac x_right_frac match_thresh min_sep_frac : ℚ)
    (patch : Option (ℕ × ℕ)) (res : List (List ℚ)) :
    (ℚ × ℚ) × (ℚ × ℚ) :=
  let x0 : ℤ := pyInt ((W : ℚ) * x_left_frac)
  let x1 : ℤ := pyInt ((W : ℚ) * x_right_frac)
  let fallbackPair : (ℚ × ℚ) × (ℚ × ℚ) :=
    let cx : ℚ := ((x0 : ℚ) + (x1 : ℚ)) / 2
    ((cx, ((pyInt ((H : ℚ) * (8 / 100)) : ℤ) : ℚ)),
     (cx, ((pyInt ((H : ℚ) * (92 / 100)) : ℤ) : ℚ)))
  match patch with
  | none => fallbackPair
  | some pd =>
    if pd.1 < 3 ∨ pd.2 < 3 then fallbackPair
    else
      let cand := candListOf res match_thresh pd.1 pd.2
      if cand = [] then fallbackPair
      else
        let keep := keepOf H min_sep_frac cand
        let keepS := sortByY keep
        let top := keepS.headD (Cand.mk 0 0 0)
        let bot := keepS.getLastD (Cand.mk 0 0 0)
        let cx_avg := (top.x + bot.x) / 2 + (x0 : ℚ)
        ((cx_avg, top.y), (cx_avg, bot.y))

/-- The four axis-fit fiducials (dataclass `AxisFids`). -/
structure AxisFids where
  line_L : ℚ × ℚ
  line_R : ℚ × ℚ
  dash_top : ℚ × ℚ
  dash_bottom : ℚ × ℚ

/-- `detect_axis_fids` (`align_omr_axisfit.py` lines 211–217): run both
detectors (at their default parameters, which the call sites use), then
order the dash pair by y and the line pair by x with swaps. -/
noncomputable def detect_axis_fids (W Hh : ℕ) (gray : List (List ℚ))
    (segs : Option (List SegZ)) (patch : Option (ℕ × ℕ))
    (res : List (List ℚ)) : AxisFids :=
  let LR := detect_header_line W Hh gray segs
  let DD := detect_dash_top_bottom Hh W (3 / 100) (18 / 100) (55 / 100)
    (4 / 100) patch res
  let dtdb := if DD.2.2 < DD.1.2 then (DD.2, DD.1) else (DD.1, DD.2)
  let LRo := if LR.2.1 < LR.1.1 then (LR.2, LR.1) else (LR.1, LR.2)
  { line_L := LRo.1, line_R := LRo.2,
    dash_top := dtdb.1, dash_bottom := dtdb.2 }

/-! ### align_omr_axisfit.py: the no-shear fit -/

/-- `np.median` of four reals: the mean of the two middle order
statistics, computed as `(sum - max - min)/2`, which is the same number
(remove one greatest and one least element from the four and average the
remaining two); `np_median4_is_middle_pair` below proves the
order-statistics reading. -/
noncomputable def np_median4 (a b c d : ℝ) : ℝ :=
  (a + b + c + d - max (max a b) (max c d) - min (min a b) (min c d)) / 2

/-- Result bundle of `fit_scale_translate`. -/
structure FitResult where
  M : Mat23 ℝ
  sx : ℝ
  sy : ℝ
  tx : ℝ
  ty : ℝ

/-- `fit_scale_translate` (`align_omr_axisfit.py` lines 233–263):
x-scale from the epsilon-guarded header-length ratio, y-scale from the
epsilon-guarded dash-span ratio, both clamped; per-axis translation as
the median of the four per-landmark residuals; diagonal matrix, no
shear. -/
noncomputable def fit_scale_translate (page templ : AxisFids)
    (sxlo sxhi sylo syhi : ℝ) : FitResult :=
  let Lp := hypotR ((page.line_R.1 - page.line_L.1 : ℚ) : ℝ)
      ((page.line_R.2 - page.line_L.2 : ℚ) : ℝ) + 1 / 1000000
  let Lt := hypotR ((templ.line_R.1 - templ.line_L.1 : ℚ) : ℝ)
      ((templ.line_R.2 - templ.line_L.2 : ℚ) : ℝ) + 1 / 1000000
  let sx := clampR (Lt / Lp) sxlo sxhi
  let Sp := |((page.dash_bottom.2 - page.dash_top.2 : ℚ) : ℝ)| + 1 / 1000000
  let St := |((templ.dash_bottom.2 - templ.dash_top.2 : ℚ) : ℝ)| + 1 / 1000000
  let sy := clampR (St / Sp) sylo syhi
  let tx := np_median4
    ((templ.line_L.1 : ℝ) - sx * (page.line_L.1 : ℝ))
    ((templ.line_R.1 : ℝ) - sx * (page.line_R.1 : ℝ))
    ((templ.dash_top.1 : ℝ) - sx * (page.dash_top.1 : ℝ))
    ((templ.dash_bottom.1 : ℝ) - sx * (page.dash_bottom.1 : ℝ))
  let ty := np_median4
    ((templ.line_L.2 : ℝ) - sy * (page.line_L.2 : ℝ))
    ((templ.line_R.2 : ℝ) - sy * (page.line_R.2 : ℝ))
    ((templ.dash_top.2 : ℝ) - sy * (page.dash_top.2 : ℝ))
    ((templ.dash_bottom.2 : ℝ) - sy * (page.dash_bottom.2 : ℝ))
  { M := { a := sx, b := 0, tx := tx, c := 0, d := sy, ty := ty },
    sx := sx, sy := sy, tx := tx, ty := ty }

/-- Step 4 of the axis-fit per-page loop (`align_omr_axisfit.py` lines
388–392): warp the page onto the template canvas with a white constant
border. -/
noncomputable def axisfit_warped (bgr : Img ℝ) (pfids tfids : AxisFids)
    (sxlo sxhi sylo syhi : ℝ) (Wt Ht : ℕ) : Img ℝ :=
  warpAffine bgr (fit_scale_translate pfids tfids sxlo sxhi sylo syhi).M
    Wt Ht (.constant 255)

/-! ### Spec-side notions and concrete inputs used by the theorems -/

/-- Follows the spec's words (§4.3 post-check), not the source: the
extent of the warped page content is the bounding box of the four page
corners mapped through the fitted homography; its shorter side is what
the spec compares against 30 % of the canvas's shorter dimension.  (The
source instead compares `min(warped.shape[:2])`, the output canvas's own
dimensions.) -/
def specWarpedContentShortSide (H : Mat3) (W Ht : ℚ) : ℚ :=
  let c0 := perspPt H (0, 0)
  let c1 := perspPt H (W, 0)
  let c2 := perspPt H (0, Ht)
  let c3 := perspPt H (W, Ht)
  let maxX := max (max c0.1 c1.1) (max c2.1 c3.1)
  let minX := min (min c0.1 c1.1) (min c2.1 c3.1)
  let maxY := max (max c0.2 c1.2) (max c2.2 c3.2)
  let minY := min (min c0.2 c1.2) (min c2.2 c3.2)
  min (maxX - minX) (maxY - minY)

/-- A homography that uniformly shrinks the page by 20: numerically
plausible (it passes `H_is_reasonable`) yet it maps all content into a
tiny corner of the canvas. -/
def exHshrink : Mat3 :=
  { m00 := 1 / 20, m01 := 0, m02 := 0,
    m10 := 0, m11 := 1 / 20, m12 := 0,
    m20 := 0, m21 := 0, m22 := 1 }

/-- The identity homography. -/
def exHid : Mat3 :=
  { m00 := 1, m01 := 0, m02 := 0,
    m10 := 0, m11 := 1, m12 := 0,
    m20 := 0, m21 := 0, m22 := 1 }

/-- An identity affine matrix. -/
def exA0 : Mat23 ℚ := { a := 1, b := 0, tx := 0, c := 0, d := 1, ty := 0 }

/-- A 1000×1000 blank page. -/
def exImg1000 : Img ℚ := { h := 1000, w := 1000, px := fun _ _ => 0 }

/-- A fiducial set with a unit dash span. -/
def exFids : FourFids :=
  { top_dash := (0, 0), bottom_dash := (0, 10),
    top_line_right := (990, 0), thin_line_right := (990, 3) }

/-- Hough segments (band-relative) on which the axis-fit header fit
produces a line of slope `2109/3971 ≈ 0.531`: three short near-horizontal
segments, each of slope `1/19 < 0.08`, staggered upward within the
cluster tolerances (`|Δm| < 0.03`, `|Δb| < 15`), for a 130×500 image. -/
def exC7segs : List SegZ :=
  [ { x1 := 19, y1 := 49, x2 := 38, y2 := 50 },
    { x1 := 0, y1 := 35, x2 := 19, y2 := 36 },
    { x1 := 38, y1 := 62, x2 := 57, y2 := 63 } ]

/-- The single cluster those segments form (seeded by the first). -/
def exC7cluster : Cluster :=
  { m := 1000000 / 19000001, b := 1102000059 / 19000001,
    segs := [ { x1 := 19, y1 := 59, x2 := 38, y2 := 60 },
              { x1 := 0, y1 := 45, x2 := 19, y2 := 46 },
              { x1 := 38, y1 := 72, x2 := 57, y2 := 73 } ] }

/-- A correlation surface with two peaks 7 rows apart, for a 190×27
image: `int(H * 0.04) = 7` while `H * 0.04 = 7.6`.  Its shape is what
`cv2.matchTemplate` produces there with a 4×4 patch: the strip is
columns `int(27*0.03) = 0` to `int(27*0.18) = 4`, so the surface is
`(190 - 4 + 1) × (4 - 4 + 1) = 187 × 1`; rows 0 and 7 hold the peaks
(scores 0.9 and 0.8), every other row scores 0. -/
def exC9res : List (List ℚ) :=
  ((List.replicate 187 ([0] : List ℚ)).set 0 [9 / 10]).set 7 [4 / 5]

/-- Axis-fit page fiducials: header line of length 10, dash span 10. -/
def exPageFids : AxisFids :=
  { line_L := (0, 0), line_R := (10, 0),
    dash_top := (0, 0), dash_bottom := (0, 10) }

/-- Axis-fit template fiducials: header line of length 9, dash span 9. -/
def exTemplFids : AxisFids :=
  { line_L := (0, 0), line_R := (9, 0),
    dash_top := (0, 0), dash_bottom := (0, 9) }

/-! ## Theorems -/

/-- A nonnegative quantity never drops below 30 % of itself: the step-4
guard `min(warped.shape[:2]) < min(Ht,Wt)*0.3` compares a quantity with
30 % of itself. -/
theorem rat_not_lt_three_tenths (q : ℚ) (hq : 0 ≤ q) :
    ¬ (q < q * (3 / 10)) := by nlinarith

/-- `mainStep34` always returns its step-3 result: the step-4 guard is
false because both warps produce a canvas of exactly `Ht × Wt`. -/
theorem mainStep34_eq (aH : Bool) (Hp : Mat3) (A : Mat23 ℚ) (img : Img ℚ)
    (f tf : FourFids) (Wt Ht : ℕ) :
    mainStep34 aH Hp A img f tf Wt Ht =
      (if H_is_reasonable Hp (img.w : ℚ) (img.h : ℚ) then
        (WarpMode.homography, warpPerspective img Hp Wt Ht .replicate)
      else
        (WarpMode.affine, warpAffine img A Wt Ht .replicate)) := by
  have hg : ¬ ((min (Ht : ℚ) (Wt : ℚ)) < (min (Ht : ℚ) (Wt : ℚ)) * (3 / 10)) :=
    rat_not_lt_three_tenths _ (le_min (by positivity) (by positivity))
  unfold mainStep34
  cases hr : H_is_reasonable Hp (img.w : ℚ) (img.h : ℚ) with
  | true =>
      simp only [hr, if_true]
      exact if_neg hg
  | false =>
      simp only [hr, Bool.false_eq_true, if_false]
      exact if_neg hg

/-- C1: the spec requires that a warp whose content occupies less than
30 % of the canvas's shorter dimension forces the similarity model; the
code instead compares the warped canvas's own dimensions — always
exactly the template's — against 30 % of themselves, so the similarity
fallback can never fire.  Concretely, the shrink-by-20 homography passes
the plausibility check, leaves the content within a 50-pixel box on a
1000×1000 canvas (far below the 300-pixel bound), and is still warped
with the homography model. -/
theorem similarity_fallback_unreachable :
    (∀ (aH : Bool) (Hp : Mat3) (A : Mat23 ℚ) (img : Img ℚ)
      (f tf : FourFids) (Wt Ht : ℕ),
      (mainStep34 aH Hp A img f tf Wt Ht).1 ≠ WarpMode.similarity)
    ∧ specWarpedContentShortSide exHshrink 1000 1000 <
        (3 / 10) * ((min 1000 1000 : ℕ) : ℚ)
    ∧ (mainStep34 true exHshrink exA0 exImg1000 exFids exFids 1000 1000).1 =
        WarpMode.homography := by
  refine ⟨fun aH Hp A img f tf Wt Ht => ?_,
    by norm_num [specWarpedContentShortSide, exHshrink, perspPt, min_def, max_def], ?_⟩
  · rw [mainStep34_eq]
    split <;> simp
  · rw [mainStep34_eq]
    have h : H_is_reasonable exHshrink ((exImg1000.w : ℕ) : ℚ)
        ((exImg1000.h : ℕ) : ℚ) = true := by
      norm_num [H_is_reasonable, exHshrink, exImg1000, perspPt, distSq,
        min_def, max_def]
    simp [h]

/-- C4: `--allow-homography` (argparse lines 289–291) is never read by
`main`: the per-page transform choice is the same for both values of the
switch, and with the switch off the homography is still fitted, checked
and — here, with the identity homography on a 1000×1000 page — used. -/
theorem allow_homography_flag_unused :
    (∀ (aH aH' : Bool) (Hp : Mat3) (A : Mat23 ℚ) (img : Img ℚ)
      (f tf : FourFids) (Wt Ht : ℕ),
      mainStep34 aH Hp A img f tf Wt Ht = mainStep34 aH' Hp A img f tf Wt Ht)
    ∧ (mainStep34 false exHid exA0 exImg1000 exFids exFids 1000 1000).1 =
        WarpMode.homography := by
  refine ⟨fun _ _ _ _ _ _ _ _ _ => rfl, ?_⟩
  rw [mainStep34_eq]
  have h : H_is_reasonable exHid ((exImg1000.w : ℕ) : ℚ)
      ((exImg1000.h : ℕ) : ℚ) = true := by
    norm_num [H_is_reasonable, exHid, exImg1000, perspPt, distSq,
      min_def, max_def]
  simp [h]

/-- C3: the fitted homography is the model used to warp if and only if
it passes `H_is_reasonable` (orientation of the mapped canvas corners
and opposite-edge balance within 2.2, with the finiteness conjunct
vacuous over exact rationals); on a failed check the fitter uses the
affine model — it never raises. -/
theorem homography_used_iff_plausible (aH : Bool) (Hp : Mat3)
    (A : Mat23 ℚ) (img : Img ℚ) (f tf : FourFids) (Wt Ht : ℕ) :
    ((mainStep34 aH Hp A img f tf Wt Ht).1 = WarpMode.homography ↔
      H_is_reasonable Hp (img.w : ℚ) (img.h : ℚ) = true)
    ∧ (H_is_reasonable Hp (img.w : ℚ) (img.h : ℚ) = false →
      (mainStep34 aH Hp A img f tf Wt Ht).1 = WarpMode.affine) := by
  rw [mainStep34_eq]
  cases hr : H_is_reasonable Hp (img.w : ℚ) (img.h : ℚ) <;> simp [hr]

/-- C2: the warped output (before the cosmetic bullseye overlay) is
exactly the template's `Ht × Wt` canvas, whatever the page's own
dimensions: in the homography/affine/similarity pipeline of
`preprocess.py` and in the axis-fit pipeline. -/
theorem warped_output_dims_invariant (aH : Bool) (Hp : Mat3)
    (A : Mat23 ℚ) (img : Img ℚ) (f tf : FourFids) (Wt Ht : ℕ)
    (bgr : Img ℝ) (pf tfa : AxisFids) (lo1 hi1 lo2 hi2 : ℝ) :
    ((mainStep34 aH Hp A img f tf Wt Ht).2.h = Ht ∧
      (mainStep34 aH Hp A img f tf Wt Ht).2.w = Wt)
    ∧ ((axisfit_warped bgr pf tfa lo1 hi1 lo2 hi2 Wt Ht).h = Ht ∧
      (axisfit_warped bgr pf tfa lo1 hi1 lo2 hi2 Wt Ht).w = Wt) := by
  refine ⟨?_, ⟨rfl, rfl⟩⟩
  rw [mainStep34_eq]
  split <;> exact ⟨rfl, rfl⟩

/-! ### Stable-sort lemmas -/

/-- `insertLe` only rearranges: the result is a permutation of `x :: l`. -/
theorem insertLe_perm {α : Type} (le : α → α → Bool) (x : α) (l : List α) :
    (insertLe le x l).Perm (x :: l) := by
  induction l with
  | nil => exact List.Perm.refl _
  | cons y t ih =>
      unfold insertLe
      by_cases h : le y x = true
      · simp only [h, if_true]
        exact (ih.cons y).trans (List.Perm.swap x y t)
      · simp [h]

/-- The insertion fold is a permutation of the input plus accumulator. -/
theorem stableSort_foldl_perm {α : Type} (le : α → α → Bool) :
    ∀ (l acc : List α),
      (l.foldl (fun a x => insertLe le x a) acc).Perm (l ++ acc) := by
  intro l
  induction l with
  | nil => intro acc; simp
  | cons x t ih =>
      intro acc
      have h1 := ih (insertLe le x acc)
      have h2 : (t ++ insertLe le x acc).Perm (t ++ (x :: acc)) :=
        List.Perm.append_left t (insertLe_perm le x acc)
      have h3 : (t ++ (x :: acc)).Perm (x :: (t ++ acc)) := List.perm_middle
      simpa using h1.trans (h2.trans h3)

/-- `stableSort` permutes its input. -/
theorem stableSort_perm {α : Type} (le : α → α → Bool) (l : List α) :
    (stableSort le l).Perm l := by
  simpa using stableSort_foldl_perm le l []

/-- Inserting into a `le`-sorted list keeps it sorted, given totality
and transitivity of `le`. -/
theorem insertLe_pairwise {α : Type} (le : α → α → Bool)
    (htot : ∀ a b, le a b = true ∨ le b a = true)
    (htrans : ∀ a b c, le a b = true → le b c = true → le a c = true)
    (x : α) (l : List α) (hl : l.Pairwise fun a b => le a b = true) :
    (insertLe le x l).Pairwise (fun a b => le a b = true) := by
  induction l with
  | nil => simp [insertLe]
  | cons y t ih =>
      rcases List.pairwise_cons.1 hl with ⟨hy, ht⟩
      unfold insertLe
      by_cases h : le y x = true
      · simp only [h, if_true]
        refine List.pairwise_cons.2 ⟨?_, ih ht⟩
        intro b hb
        rcases List.mem_cons.1 ((insertLe_perm le x t).mem_iff.1 hb) with rfl | hbt
        · exact h
        · exact hy b hbt
      · have hxy : le x y = true := (htot x y).resolve_right (by simpa using h)
        simp only [h, if_false]
        refine List.pairwise_cons.2 ⟨?_, hl⟩
        intro b hb
        rcases List.mem_cons.1 hb with rfl | hbt
        · exact hxy
        · exact htrans x y b hxy (hy b hbt)

/-- The insertion fold sorts, given totality and transitivity. -/
theorem stableSort_foldl_pairwise {α : Type} (le : α → α → Bool)
    (htot : ∀ a b, le a b = true ∨ le b a = true)
    (htrans : ∀ a b c, le a b = true → le b c = true → le a c = true) :
    ∀ (l acc : List α), acc.Pairwise (fun a b => le a b = true) →
      (l.foldl (fun a x => insertLe le x a) acc).Pairwise
        (fun a b => le a b = true) := by
  intro l
  induction l with
  | nil => intro acc h; simpa using h
  | cons x t ih =>
      intro acc h
      exact ih (insertLe le x acc) (insertLe_pairwise le htot htrans x acc h)

/-- `stableSort` sorts, given totality and transitivity. -/
theorem stableSort_pairwise {α : Type} (le : α → α → Bool)
    (htot : ∀ a b, le a b = true ∨ le b a = true)
    (htrans : ∀ a b c, le a b = true → le b c = true → le a c = true)
    (l : List α) :
    (stableSort le l).Pairwise (fun a b => le a b = true) :=
  stableSort_foldl_pairwise le htot htrans l [] List.Pairwise.nil

/-- `sortScoreDesc` permutes. -/
theorem sortScoreDesc_perm (l : List Cand) : (sortScoreDesc l).Perm l :=
  stableSort_perm _ l

/-- `sortScoreDesc` yields descending scores. -/
theorem sortScoreDesc_sorted (l : List Cand) :
    (sortScoreDesc l).Pairwise (fun a b => b.score ≤ a.score) := by
  have h := stableSort_pairwise (fun a b : Cand => decide (b.score ≤ a.score))
    (fun a b => by rcases le_total b.score a.score with h | h <;> simp [h])
    (fun a b c hab hbc => by
      simp only [decide_eq_true_eq] at *
      exact le_trans hbc hab) l
  exact h.imp fun hab => of_decide_eq_true hab

/-- `sortByY` permutes. -/
theorem sortByY_perm (l : List Cand) : (sortByY l).Perm l :=
  stableSort_perm _ l

/-- `sortByY` yields ascending y. -/
theorem sortByY_sorted (l : List Cand) :
    (sortByY l).Pairwise (fun a b => a.y ≤ b.y) := by
  have h := stableSort_pairwise (fun a b : Cand => decide (a.y ≤ b.y))
    (fun a b => by rcases le_total a.y b.y with h | h <;> simp [h])
    (fun a b c hab hbc => by
      simp only [decide_eq_true_eq] at *
      exact le_trans hab hbc) l
  exact h.imp fun hab => of_decide_eq_true hab

/-- The head of a pairwise-related list is related to every member,
for a reflexive relation. -/
theorem pairwise_headD_rel {α : Type} {P : α → α → Prop}
    (hrefl : ∀ a, P a a) (d : α) (l : List α) (hp : l.Pairwise P) :
    ∀ x ∈ l, P (l.headD d) x := by
  intro x hx
  cases l with
  | nil => simp at hx
  | cons a t =>
      rcases List.mem_cons.1 hx with rfl | hxt
      · exact hrefl x
      · exact (List.pairwise_cons.1 hp).1 x hxt

/-- `getLastD` of a nonempty list is a member. -/
theorem getLastD_mem {α : Type} :
    ∀ (l : List α) (d : α), l ≠ [] → l.getLastD d ∈ l := by
  intro l
  induction l with
  | nil => intro d h; exact absurd rfl h
  | cons a t ih =>
      intro d _
      rw [List.getLastD_cons]
      by_cases ht : t = []
      · subst ht; simp
      · exact List.mem_cons_of_mem a (ih a ht)

/-- Every member of a pairwise-related list is related to its
`getLastD`, for a reflexive relation. -/
theorem pairwise_getLastD_rel {α : Type} {P : α → α → Prop}
    (hrefl : ∀ a, P a a) :
    ∀ (l : List α) (d : α), l.Pairwise P → ∀ x ∈ l, P x (l.getLastD d) := by
  intro l
  induction l with
  | nil => intro d hp x hx; simp at hx
  | cons a t ih =>
      intro d hp x hx
      rcases List.pairwise_cons.1 hp with ⟨ha, ht⟩
      rw [List.getLastD_cons]
      rcases List.mem_cons.1 hx with rfl | hxt
      · by_cases htn : t = []
        · subst htn; exact hrefl x
        · exact ha _ (getLastD_mem t x htn)
      · exact ih a ht x hxt

/-! ### Suppression-loop lemmas -/

/-- One unfolding step of the suppression loop. -/
theorem nmsGo_cons (sep : ℚ) (c : Cand) (rest keep : List Cand) :
    nmsGo sep (c :: rest) keep =
      (if 30 < (nmsStep sep c keep).length then nmsStep sep c keep
       else nmsGo sep rest (nmsStep sep c keep)) := rfl

/-- The step appends the candidate when it clears every kept peak. -/
theorem nmsStep_pos (sep : ℚ) (c : Cand) (keep : List Cand)
    (h : (keep.all fun k => decide (sep ≤ |c.y - k.y|)) = true) :
    nmsStep sep c keep = keep ++ [c] := by
  unfold nmsStep; rw [if_pos h]

/-- The step drops the candidate when some kept peak is too close. -/
theorem nmsStep_neg (sep : ℚ) (c : Cand) (keep : List Cand)
    (h : ¬ (keep.all fun k => decide (sep ≤ |c.y - k.y|)) = true) :
    nmsStep sep c keep = keep := by
  unfold nmsStep; rw [if_neg h]

/-- The suppression loop only ever appends: its result extends the
accumulator. -/
theorem nmsGo_extends (sep : ℚ) :
    ∀ (l keep : List Cand), ∃ t, nmsGo sep l keep = keep ++ t := by
  intro l
  induction l with
  | nil => intro keep; exact ⟨[], by simp [nmsGo]⟩
  | cons c rest ih =>
      intro keep
      rw [nmsGo_cons]
      by_cases hc : (keep.all fun k => decide (sep ≤ |c.y - k.y|)) = true
      · rw [nmsStep_pos sep c keep hc]
        by_cases h30 : 30 < (keep ++ [c]).length
        · exact ⟨[c], by rw [if_pos h30]⟩
        · rcases ih (keep ++ [c]) with ⟨t, ht⟩
          exact ⟨[c] ++ t, by rw [if_neg h30, ht, List.append_assoc]⟩
      · rw [nmsStep_neg sep c keep hc]
        by_cases h30 : 30 < keep.length
        · exact ⟨[], by rw [if_pos h30, List.append_nil]⟩
        · rcases ih keep with ⟨t, ht⟩
          exact ⟨t, by rw [if_neg h30, ht]⟩

/-- The suppression loop maintains pairwise y-separation of the kept
peaks. -/
theorem nmsGo_pairwise (sep : ℚ) :
    ∀ (l keep : List Cand),
      keep.Pairwise (fun a b => sep ≤ |a.y - b.y|) →
      (nmsGo sep l keep).Pairwise (fun a b => sep ≤ |a.y - b.y|) := by
  intro l
  induction l with
  | nil => intro keep h; simpa [nmsGo] using h
  | cons c rest ih =>
      intro keep h
      rw [nmsGo_cons]
      by_cases hc : (keep.all fun k => decide (sep ≤ |c.y - k.y|)) = true
      · have hall := List.all_eq_true.1 hc
        have hkc : (keep ++ [c]).Pairwise (fun a b => sep ≤ |a.y - b.y|) := by
          rw [List.pairwise_append]
          refine ⟨h, List.pairwise_singleton _ c, ?_⟩
          intro a ha b hb
          obtain rfl := List.mem_singleton.1 hb
          have hd := of_decide_eq_true (hall a ha)
          rwa [abs_sub_comm] at hd
        rw [nmsStep_pos sep c keep hc]
        by_cases h30 : 30 < (keep ++ [c]).length
        · rwa [if_pos h30]
        · rw [if_neg h30]; exact ih (keep ++ [c]) hkc
      · rw [nmsStep_neg sep c keep hc]
        by_cases h30 : 30 < keep.length
        · rwa [if_pos h30]
        · rw [if_neg h30]; exact ih keep h

/-- Rejection analysis of the suppression loop: a candidate absent from
the output was either within `sep` of a kept peak of no smaller score,
or the loop had already capped at 31 kept peaks. -/
theorem nmsGo_reject (sep : ℚ) :
    ∀ (l keep : List Cand),
      l.Pairwise (fun a b => b.score ≤ a.score) →
      (∀ k ∈ keep, ∀ c ∈ l, c.score ≤ k.score) →
      ∀ c ∈ l, c ∉ nmsGo sep l keep →
      (∃ k ∈ nmsGo sep l keep, |c.y - k.y| < sep ∧ c.score ≤ k.score)
      ∨ 31 ≤ (nmsGo sep l keep).length := by
  intro l
  induction l with
  | nil => intro keep _ _ c hc; simp at hc
  | cons c0 rest ih =>
      intro keep hsorted hdom c hc hnot
      rcases List.pairwise_cons.1 hsorted with ⟨hc0rest, hrest⟩
      have hdomr : ∀ k ∈ keep, ∀ d ∈ rest, d.score ≤ k.score :=
        fun k hk d hd => hdom k hk d (List.mem_cons_of_mem c0 hd)
      rw [nmsGo_cons] at hnot ⊢
      by_cases hcnd : (keep.all fun k => decide (sep ≤ |c0.y - k.y|)) = true
      · rw [nmsStep_pos sep c0 keep hcnd] at hnot ⊢
        by_cases h30 : 30 < (keep ++ [c0]).length
        · rw [if_pos h30] at hnot ⊢
          rcases List.mem_cons.1 hc with heq | hcr
          · exact absurd (heq ▸ List.mem_append_right keep
              (List.mem_singleton.2 rfl)) hnot
          · right
            simp only [List.length_append, List.length_singleton] at h30 ⊢
            omega
        · rw [if_neg h30] at hnot ⊢
          rcases List.mem_cons.1 hc with heq | hcr
          · rcases nmsGo_extends sep rest (keep ++ [c0]) with ⟨t, ht⟩
            refine absurd ?_ hnot
            rw [ht, heq]
            exact List.mem_append_left t
              (List.mem_append_right keep (List.mem_singleton.2 rfl))
          · refine ih (keep ++ [c0]) hrest ?_ c hcr hnot
            intro k hk d hd
            rcases List.mem_append.1 hk with hkk | hkc0
            · exact hdomr k hkk d hd
            · obtain rfl := List.mem_singleton.1 hkc0
              exact hc0rest d hd
      · rw [nmsStep_neg sep c0 keep hcnd] at hnot ⊢
        have hexists : ∃ k ∈ keep, |c0.y - k.y| < sep := by
          have hnall : ¬ ∀ k ∈ keep, sep ≤ |c0.y - k.y| := fun hall =>
            hcnd (List.all_eq_true.2 fun k hk => decide_eq_true (hall k hk))
          push_neg at hnall
          exact hnall
        by_cases h30 : 30 < keep.length
        · rw [if_pos h30] at hnot ⊢
          rcases List.mem_cons.1 hc with heq | hcr
          · rcases hexists with ⟨k, hk, hlt⟩
            refine Or.inl ⟨k, hk, ?_, hdom k hk c hc⟩
            rw [heq]
            exact hlt
          · right; omega
        · rw [if_neg h30] at hnot ⊢
          rcases List.mem_cons.1 hc with heq | hcr
          · rcases hexists with ⟨k, hk, hlt⟩
            rcases nmsGo_extends sep rest keep with ⟨t, ht⟩
            refine Or.inl ⟨k, ?_, ?_, hdom k hk c hc⟩
            · rw [ht]
              exact List.mem_append_left t hk
            · rw [heq]
              exact hlt
          · exact ih keep hrest hdomr c hcr hnot

/-- A nonempty candidate list leaves at least one kept peak. -/
theorem nmsGo_ne_nil (sep : ℚ) (l : List Cand) (hl : l ≠ []) :
    nmsGo sep l [] ≠ [] := by
  cases l with
  | nil => exact absurd rfl hl
  | cons c rest =>
      rw [nmsGo_cons, nmsStep_pos sep c [] (by simp)]
      by_cases h30 : 30 < (([] : List Cand) ++ [c]).length
      · rw [if_pos h30]; simp
      · rw [if_neg h30]
        rcases nmsGo_extends sep rest ([] ++ [c]) with ⟨t, ht⟩
        rw [ht]
        simp

/-- The head of a nonempty list is a member. -/
theorem headD_mem {α : Type} (l : List α) (d : α) (h : l ≠ []) :
    l.headD d ∈ l := by
  cases l with
  | nil => exact absurd rfl h
  | cons a t => exact List.mem_cons_self a t

/-- On the template-matching main path (valid patch, nonempty candidate
list) `detect_dash_top_bottom` returns the y-extremes of the suppressed
peak list, both carried at the averaged x. -/
theorem detect_dash_main_eq (H W : ℕ) (xlf xrf mt msf : ℚ) (hT wT : ℕ)
    (res : List (List ℚ)) (hpatch : ¬ (hT < 3 ∨ wT < 3))
    (hcand : candListOf res mt hT wT ≠ []) :
    detect_dash_top_bottom H W xlf xrf mt msf (some (hT, wT)) res =
      (let keepS := sortByY (keepOf H msf (candListOf res mt hT wT))
       let top := keepS.headD (Cand.mk 0 0 0)
       let bot := keepS.getLastD (Cand.mk 0 0 0)
       let cx := (top.x + bot.x) / 2 + ((pyInt ((W : ℚ) * xlf) : ℤ) : ℚ)
       ((cx, top.y), (cx, bot.y))) := by
  unfold detect_dash_top_bottom
  dsimp only
  rw [if_neg hpatch, if_neg hcand]

/-- The suppressed peak list is nonempty whenever a candidate exists. -/
theorem keepOf_ne_nil (H : ℕ) (msf : ℚ) (cand : List Cand)
    (hcand : cand ≠ []) : keepOf H msf cand ≠ [] := by
  unfold keepOf
  apply nmsGo_ne_nil
  intro hemp
  have hp := sortScoreDesc_perm cand
  rw [hemp] at hp
  exact hcand hp.nil_eq.symm

/-- C10: both dash detectors return dash-top and dash-bottom at exactly
the same x-coordinate, on every path (template matching in
`align_omr_axisfit.py`, blob detection in `preprocess.py`, and all
fallbacks); on the matching main path that common x is the average of
the two extreme surviving peaks' x's plus the strip offset, so no
horizontal offset between the marks survives detection. -/
theorem dash_points_share_common_x :
    (∀ (H W : ℕ) (xlf xrf mt msf : ℚ) (patch : Option (ℕ × ℕ))
      (res : List (List ℚ)),
      (detect_dash_top_bottom H W xlf xrf mt msf patch res).1.1 =
        (detect_dash_top_bottom H W xlf xrf mt msf patch res).2.1)
    ∧ (∀ (H W : ℕ) (xcf xhf ytf ybf : ℚ) (rects : List Rect),
      (detect_dashes_tight H W xcf xhf ytf ybf rects).1.1 =
        (detect_dashes_tight H W xcf xhf ytf ybf rects).2.1)
    ∧ (∀ (H W : ℕ) (xlf xrf mt msf : ℚ) (hT wT : ℕ) (res : List (List ℚ)),
      ¬ (hT < 3 ∨ wT < 3) → candListOf res mt hT wT ≠ [] →
      (detect_dash_top_bottom H W xlf xrf mt msf (some (hT, wT)) res).1.1 =
        (((sortByY (keepOf H msf (candListOf res mt hT wT))).headD
            (Cand.mk 0 0 0)).x +
          ((sortByY (keepOf H msf (candListOf res mt hT wT))).getLastD
            (Cand.mk 0 0 0)).x) / 2 +
          ((pyInt ((W : ℚ) * xlf) : ℤ) : ℚ)) := by
  refine ⟨?_, ?_, ?_⟩
  · intro H W xlf xrf mt msf patch res
    cases patch with
    | none => rfl
    | some pd =>
        unfold detect_dash_top_bottom
        dsimp only
        split
        · rfl
        · split
          · rfl
          · rfl
  · intro H W xcf xhf ytf ybf rects
    unfold detect_dashes_tight
    dsimp only
    split
    · rfl
    · rfl
  · intro H W xlf xrf mt msf hT wT res hpatch hcand
    rw [detect_dash_main_eq H W xlf xrf mt msf hT wT res hpatch hcand]

/-- C9 (amended): after the suppression pass, kept peaks are pairwise at
least `max(6, int(H*0.04))` apart in y (the source floors `H*0.04`
through `int()`); every rejected candidate is within that distance of a
kept peak of no smaller score, unless the pass had already capped at 31
kept peaks; and the returned dash-top/dash-bottom are the topmost and
bottommost surviving peaks. -/
theorem dash_nms_invariants (H W : ℕ) (xlf xrf mt msf : ℚ) (hT wT : ℕ)
    (res : List (List ℚ)) (hpatch : ¬ (hT < 3 ∨ wT < 3))
    (hcand : candListOf res mt hT wT ≠ []) :
    (keepOf H msf (candListOf res mt hT wT)).Pairwise
        (fun a b => sepOf H msf ≤ |a.y - b.y|)
    ∧ (∀ c ∈ candListOf res mt hT wT,
        c ∉ keepOf H msf (candListOf res mt hT wT) →
        (∃ k ∈ keepOf H msf (candListOf res mt hT wT),
          |c.y - k.y| < sepOf H msf ∧ c.score ≤ k.score)
        ∨ 31 ≤ (keepOf H msf (candListOf res mt hT wT)).length)
    ∧ (∃ kt ∈ keepOf H msf (candListOf res mt hT wT),
        (detect_dash_top_bottom H W xlf xrf mt msf (some (hT, wT)) res).1.2
          = kt.y
        ∧ ∀ k ∈ keepOf H msf (candListOf res mt hT wT), kt.y ≤ k.y)
    ∧ (∃ kb ∈ keepOf H msf (candListOf res mt hT wT),
        (detect_dash_top_bottom H W xlf xrf mt msf (some (hT, wT)) res).2.2
          = kb.y
        ∧ ∀ k ∈ keepOf H msf (candListOf res mt hT wT), k.y ≤ kb.y) := by
  have hkeep : keepOf H msf (candListOf res mt hT wT) ≠ [] :=
    keepOf_ne_nil H msf _ hcand
  have hSperm := sortByY_perm (keepOf H msf (candListOf res mt hT wT))
  have hSne : sortByY (keepOf H msf (candListOf res mt hT wT)) ≠ [] := by
    intro hemp
    rw [hemp] at hSperm
    exact hkeep hSperm.nil_eq.symm
  have hSsorted := sortByY_sorted (keepOf H msf (candListOf res mt hT wT))
  rw [detect_dash_main_eq H W xlf xrf mt msf hT wT res hpatch hcand]
  refine ⟨?_, ?_, ?_, ?_⟩
  · exact nmsGo_pairwise _ _ [] List.Pairwise.nil
  · intro c hc hnot
    have hc' : c ∈ sortScoreDesc (candListOf res mt hT wT) :=
      (sortScoreDesc_perm _).mem_iff.2 hc
    exact nmsGo_reject _ _ [] (sortScoreDesc_sorted _) (by simp) c hc' hnot
  · refine ⟨(sortByY (keepOf H msf (candListOf res mt hT wT))).headD
      (Cand.mk 0 0 0), ?_, rfl, ?_⟩
    · exact hSperm.mem_iff.1 (headD_mem _ _ hSne)
    · intro k hk
      exact pairwise_headD_rel (P := fun a b => a.y ≤ b.y)
        (fun a => le_refl a.y) _ _ hSsorted k (hSperm.mem_iff.2 hk)
  · refine ⟨(sortByY (keepOf H msf (candListOf res mt hT wT))).getLastD
      (Cand.mk 0 0 0), ?_, rfl, ?_⟩
    · exact hSperm.mem_iff.1 (getLastD_mem _ _ hSne)
    · intro k hk
      exact pairwise_getLastD_rel (P := fun a b => a.y ≤ b.y)
        (fun a => le_refl a.y) _ _ hSsorted k (hSperm.mem_iff.2 hk)

set_option maxRecDepth 4000 in
/-- C9 counterexample to the claim's unfloored separation bound: for a
190-row image the source's separation is `max(6, int(190*0.04)) = 7`,
so two peaks 7 rows apart (scores 0.9 and 0.8) both survive the
suppression pass and become dash-top and dash-bottom, yet their distance
7 is below the claim's `max(6, 0.04*H) = 7.6`. -/
theorem dash_nms_sep_floor_cex :
    keepOf 190 (4 / 100) (candListOf exC9res (55 / 100) 4 4) =
      [Cand.mk 2 2 (9 / 10), Cand.mk 2 9 (4 / 5)]
    ∧ detect_dash_top_bottom 190 27 (3 / 100) (18 / 100) (55 / 100)
        (4 / 100) (some (4, 4)) exC9res = ((2, 2), (2, 9))
    ∧ |(2 : ℚ) - 9| < max 6 ((190 : ℚ) * (4 / 100)) := by
  refine ⟨?_, ?_, by norm_num⟩
  · norm_num [keepOf, candListOf, resHits, exC9res, List.replicate,
      List.set, List.enum, List.enumFrom, List.flatMap, List.filterMap,
      sortScoreDesc, stableSort, insertLe, nmsGo, nmsStep, sepOf, pyInt, abs]
  · norm_num [detect_dash_top_bottom, keepOf, candListOf, resHits, exC9res,
      List.replicate, List.set, List.enum, List.enumFrom, List.flatMap,
      List.filterMap, sortScoreDesc, sortByY, stableSort, insertLe, nmsGo,
      nmsStep, sepOf, pyInt, abs, List.headD, List.getLastD,
      List.cons_ne_nil]

set_option maxRecDepth 4000 in
/-- Witness for the suppression invariants at the concrete 190-row
surface with two well-separated peaks. -/
theorem dash_nms_invariants_witness :
    (¬ ((4 : ℕ) < 3 ∨ (4 : ℕ) < 3))
    ∧ candListOf exC9res (55 / 100) 4 4 ≠ []
    ∧ ((keepOf 190 (4 / 100) (candListOf exC9res (55 / 100) 4 4)).Pairwise
          (fun a b => sepOf 190 (4 / 100) ≤ |a.y - b.y|)
      ∧ (∀ c ∈ candListOf exC9res (55 / 100) 4 4,
          c ∉ keepOf 190 (4 / 100) (candListOf exC9res (55 / 100) 4 4) →
          (∃ k ∈ keepOf 190 (4 / 100) (candListOf exC9res (55 / 100) 4 4),
            |c.y - k.y| < sepOf 190 (4 / 100) ∧ c.score ≤ k.score)
          ∨ 31 ≤ (keepOf 190 (4 / 100)
              (candListOf exC9res (55 / 100) 4 4)).length)
      ∧ (∃ kt ∈ keepOf 190 (4 / 100) (candListOf exC9res (55 / 100) 4 4),
          (detect_dash_top_bottom 190 100 (3 / 100) (18 / 100) (55 / 100)
            (4 / 100) (some (4, 4)) exC9res).1.2 = kt.y
          ∧ ∀ k ∈ keepOf 190 (4 / 100) (candListOf exC9res (55 / 100) 4 4),
              kt.y ≤ k.y)
      ∧ (∃ kb ∈ keepOf 190 (4 / 100) (candListOf exC9res (55 / 100) 4 4),
          (detect_dash_top_bottom 190 100 (3 / 100) (18 / 100) (55 / 100)
            (4 / 100) (some (4, 4)) exC9res).2.2 = kb.y
          ∧ ∀ k ∈ keepOf 190 (4 / 100) (candListOf exC9res (55 / 100) 4 4),
              k.y ≤ kb.y)) := by
  have hp1 : ¬ ((4 : ℕ) < 3 ∨ (4 : ℕ) < 3) := by decide
  have hp2 : candListOf exC9res (55 / 100) 4 4 ≠ [] := by
    norm_num [candListOf, resHits, exC9res, List.replicate, List.set,
      List.enum, List.enumFrom, List.flatMap, List.filterMap,
      List.cons_ne_nil]
  exact ⟨hp1, hp2, dash_nms_invariants 190 100 (3 / 100) (18 / 100)
    (55 / 100) (4 / 100) 4 4 exC9res hp1 hp2⟩

/-- `pyInt` is the floor on nonnegative arguments. -/
theorem pyInt_eq_floor (q : ℚ) (h : 0 ≤ q) : pyInt q = ⌊q⌋ := by
  unfold pyInt; rw [if_pos h]

/-- Every dash candidate's sort key is its own center y. -/
theorem dashCands_fst_eq (H W : ℕ) (xcf xhf ytf ybf : ℚ)
    (rects : List Rect) :
    ∀ e ∈ dashCands H W xcf xhf ytf ybf rects, e.1 = e.2.2 := by
  intro e he
  rcases List.mem_filterMap.1 he with ⟨r, _, hfr⟩
  dsimp only at hfr
  split_ifs at hfr <;> cases hfr <;> rfl

/-- `detect_dashes_tight` returns its two centers in vertical order
whenever the ROI is not inverted (`y0 ≤ y1`): the candidate branch sorts
by center y and takes the extremes, the fallback places its two points
at 5 % and 95 % of the ROI height. -/
theorem detect_dashes_tight_ordered (H W : ℕ) (xcf xhf ytf ybf : ℚ)
    (rects : List Rect) (hy : dashY0 H ytf ≤ dashY1 H ybf) :
    (detect_dashes_tight H W xcf xhf ytf ybf rects).1.2 ≤
      (detect_dashes_tight H W xcf xhf ytf ybf rects).2.2 := by
  unfold detect_dashes_tight
  dsimp only
  split
  · have hq : ((dashY0 H ytf : ℤ) : ℚ) ≤ ((dashY1 H ybf : ℤ) : ℚ) := by
      exact_mod_cast hy
    nlinarith [hq]
  · rename_i hne
    have hinv := dashCands_fst_eq H W xcf xhf ytf ybf rects
    have hperm := stableSort_perm (fun a b : ℚ × ℚ × ℚ => decide (a.1 ≤ b.1))
      (dashCands H W xcf xhf ytf ybf rects)
    have hsorted := stableSort_pairwise
      (fun a b : ℚ × ℚ × ℚ => decide (a.1 ≤ b.1))
      (fun a b => by rcases le_total a.1 b.1 with h | h <;> simp [h])
      (fun a b c hab hbc => by
        simp only [decide_eq_true_eq] at *
        exact le_trans hab hbc) (dashCands H W xcf xhf ytf ybf rects)
    have hsne : stableSort (fun a b : ℚ × ℚ × ℚ => decide (a.1 ≤ b.1))
        (dashCands H W xcf xhf ytf ybf rects) ≠ [] := by
      intro hemp
      rw [hemp] at hperm
      exact hne hperm.nil_eq.symm
    have hhead := headD_mem _ ((0 : ℚ), ((0 : ℚ), (0 : ℚ))) hsne
    have hlast := getLastD_mem _ ((0 : ℚ), ((0 : ℚ), (0 : ℚ))) hsne
    have hle := pairwise_headD_rel
      (P := fun a b : ℚ × ℚ × ℚ => a.1 ≤ b.1 ∨ a = b)
      (fun a => Or.inr rfl) ((0 : ℚ), ((0 : ℚ), (0 : ℚ))) _
      (hsorted.imp fun h => Or.inl (of_decide_eq_true h)) _ hlast
    have hheadinv := hinv _ (hperm.subset hhead)
    have hlastinv := hinv _ (hperm.subset hlast)
    rcases hle with hle | hle
    · rw [← hheadinv, ← hlastinv]
      linarith
    · exact le_of_eq (by rw [hle])

/-- C5: the fiducial ordering invariant.  In `align_omr_axisfit.py` the
detector output always has `line_L.x ≤ line_R.x` and
`dash_top.y ≤ dash_bottom.y`, enforced by the swaps of
`detect_axis_fids` for every detector result.  In `preprocess.py`,
`detect_four_on_image` always orders the two line landmarks
(`top_line_right.y ≤ thin_line_right.y`, enforced by a swap) and, for a
template whose normalized dash positions satisfy
`0 ≤ top ≤ bottom ≤ 1`, also the two dash centers
(`top_dash.y ≤ bottom_dash.y`).  Both detectors are total functions:
they never raise and never return an empty result. -/
theorem fiducial_ordering_invariant (W Hh : ℕ) (gray : List (List ℚ))
    (segs : Option (List SegZ)) (patch : Option (ℕ × ℕ))
    (res : List (List ℚ)) (Hp Wp : ℕ) (tpl : FourFidsNorm) (tight : ℚ)
    (rects : List Rect) (blurTop blurThin : List (List ℚ))
    (linesTop linesThin : Option (List SegZ))
    (h0 : 0 ≤ tpl.top_dash.2) (h1 : tpl.top_dash.2 ≤ tpl.bottom_dash.2)
    (h2 : tpl.bottom_dash.2 ≤ 1) :
    ((detect_axis_fids W Hh gray segs patch res).line_L.1 ≤
        (detect_axis_fids W Hh gray segs patch res).line_R.1
      ∧ (detect_axis_fids W Hh gray segs patch res).dash_top.2 ≤
        (detect_axis_fids W Hh gray segs patch res).dash_bottom.2)
    ∧ ((detect_four_on_image Hp Wp tpl tight rects blurTop blurThin
          linesTop linesThin).top_line_right.2 ≤
        (detect_four_on_image Hp Wp tpl tight rects blurTop blurThin
          linesTop linesThin).thin_line_right.2
      ∧ (detect_four_on_image Hp Wp tpl tight rects blurTop blurThin
          linesTop linesThin).top_dash.2 ≤
        (detect_four_on_image Hp Wp tpl tight rects blurTop blurThin
          linesTop linesThin).bottom_dash.2) := by
  refine ⟨⟨?_, ?_⟩, ?_, ?_⟩
  · unfold detect_axis_fids
    dsimp only
    split
    · exact le_of_lt (by assumption)
    · exact le_of_not_lt (by assumption)
  · unfold detect_axis_fids
    dsimp only
    split
    · exact le_of_lt (by assumption)
    · exact le_of_not_lt (by assumption)
  · unfold detect_four_on_image
    dsimp only
    split
    · exact le_of_lt (by assumption)
    · exact le_of_not_lt (by assumption)
  · unfold detect_four_on_image
    dsimp only
    apply detect_dashes_tight_ordered
    unfold dashY0 dashY1
    have hyt : (0 : ℚ) < max (2 / 100) (tpl.top_dash.2 - 12 / 100) :=
      lt_max_of_lt_left (by norm_num)
    have hyb0 : (12 / 100 : ℚ) ≤ min (98 / 100) (tpl.bottom_dash.2 + 12 / 100) :=
      le_min (by norm_num) (by linarith)
    have hytb : max (2 / 100) (tpl.top_dash.2 - 12 / 100) ≤
        min (98 / 100) (tpl.bottom_dash.2 + 12 / 100) := by
      apply max_le
      · exact le_min (by norm_num) (by linarith)
      · exact le_min (by linarith) (by linarith)
    have hyb1 : min (98 / 100) (tpl.bottom_dash.2 + 12 / 100) ≤ 1 :=
      le_trans (min_le_left _ _) (by norm_num)
    rw [pyInt_eq_floor _ (by positivity),
        pyInt_eq_floor _ (by positivity)]
    have hfl0 : (0 : ℤ) ≤ ⌊max (2 / 100) (tpl.top_dash.2 - 12 / 100) * (Hp : ℚ)⌋ :=
      Int.floor_nonneg.2 (by positivity)
    rw [max_eq_right hfl0]
    apply le_min
    · calc ⌊max (2 / 100) (tpl.top_dash.2 - 12 / 100) * (Hp : ℚ)⌋
          ≤ ⌊(1 : ℚ) * (Hp : ℚ)⌋ := by
            apply Int.floor_le_floor
            apply mul_le_mul_of_nonneg_right (le_trans hytb hyb1) (by positivity)
        _ = (Hp : ℤ) := by rw [one_mul, Int.floor_natCast]
    · apply Int.floor_le_floor
      exact mul_le_mul_of_nonneg_right hytb (by positivity)

/-- Witness for the ordering invariant at a concrete template whose
normalized dash positions are `0 ≤ 1/10 ≤ 9/10 ≤ 1`. -/
theorem fiducial_ordering_invariant_witness :
    ((0 : ℚ) ≤ (FourFidsNorm.mk (1 / 2, 1 / 10) (1 / 2, 9 / 10)
        (99 / 100, 1 / 10) (99 / 100, 1 / 4)).top_dash.2)
    ∧ ((FourFidsNorm.mk (1 / 2, 1 / 10) (1 / 2, 9 / 10)
        (99 / 100, 1 / 10) (99 / 100, 1 / 4)).top_dash.2 ≤
      (FourFidsNorm.mk (1 / 2, 1 / 10) (1 / 2, 9 / 10)
        (99 / 100, 1 / 10) (99 / 100, 1 / 4)).bottom_dash.2)
    ∧ ((FourFidsNorm.mk (1 / 2, 1 / 10) (1 / 2, 9 / 10)
        (99 / 100, 1 / 10) (99 / 100, 1 / 4)).bottom_dash.2 ≤ 1)
    ∧ (((detect_axis_fids 130 500 [] none none []).line_L.1 ≤
        (detect_axis_fids 130 500 [] none none []).line_R.1
      ∧ (detect_axis_fids 130 500 [] none none []).dash_top.2 ≤
        (detect_axis_fids 130 500 [] none none []).dash_bottom.2)
    ∧ ((detect_four_on_image 400 300
          (FourFidsNorm.mk (1 / 2, 1 / 10) (1 / 2, 9 / 10)
            (99 / 100, 1 / 10) (99 / 100, 1 / 4)) (5 / 100) [] [] []
          none none).top_line_right.2 ≤
        (detect_four_on_image 400 300
          (FourFidsNorm.mk (1 / 2, 1 / 10) (1 / 2, 9 / 10)
            (99 / 100, 1 / 10) (99 / 100, 1 / 4)) (5 / 100) [] [] []
          none none).thin_line_right.2
      ∧ (detect_four_on_image 400 300
          (FourFidsNorm.mk (1 / 2, 1 / 10) (1 / 2, 9 / 10)
            (99 / 100, 1 / 10) (99 / 100, 1 / 4)) (5 / 100) [] [] []
          none none).top_dash.2 ≤
        (detect_four_on_image 400 300
          (FourFidsNorm.mk (1 / 2, 1 / 10) (1 / 2, 9 / 10)
            (99 / 100, 1 / 10) (99 / 100, 1 / 4)) (5 / 100) [] [] []
          none none).bottom_dash.2)) :=
  ⟨by norm_num, by norm_num, by norm_num,
    fiducial_ordering_invariant 130 500 [] none none [] 400 300
      (FourFidsNorm.mk (1 / 2, 1 / 10) (1 / 2, 9 / 10)
        (99 / 100, 1 / 10) (99 / 100, 1 / 4)) (5 / 100) [] [] [] none none
      (by norm_num) (by norm_num) (by norm_num)⟩

/-! ### `np.argmin` lemmas -/

/-- Invariant of the `argminAux` scan: starting from an incumbent that is
an indexed element of `l`, the result is an indexed element of `l`, no
larger than the incumbent, and no larger than anything in the scanned
tail. -/
theorem argminAux_spec :
    ∀ (xs : List ℚ) (i : ℕ) (b : ℕ × ℚ) (l : List ℚ),
      l.getD b.1 0 = b.2 → l.drop i = xs →
      l.getD (argminAux xs i b).1 0 = (argminAux xs i b).2
      ∧ (argminAux xs i b).2 ≤ b.2
      ∧ ∀ x ∈ xs, (argminAux xs i b).2 ≤ x := by
  intro xs
  induction xs with
  | nil =>
      intro i b l hb _
      exact ⟨hb, le_refl _, by simp⟩
  | cons x t ih =>
      intro i b l hb hdrop
      have hxi : l.getD i 0 = x := by
        have h1 : l[i]? = some x := by
          rw [← List.head?_drop, hdrop]; rfl
        simp [List.getD_eq_getElem?_getD, h1]
      have hdrop1 : l.drop (i + 1) = t := by
        have h2 : List.drop 1 (l.drop i) = l.drop (i + 1) := List.drop_drop 1 i l
        rw [← h2, hdrop]; rfl
      unfold argminAux
      by_cases hlt : x < b.2
      · rw [if_pos hlt]
        rcases ih (i + 1) (i, x) l hxi hdrop1 with ⟨h1, h2, h3⟩
        refine ⟨h1, le_trans h2 (le_of_lt hlt), ?_⟩
        intro z hz
        rcases List.mem_cons.1 hz with rfl | hzt
        · exact h2
        · exact h3 z hzt
      · rw [if_neg hlt]
        rcases ih (i + 1) b l hb hdrop1 with ⟨h1, h2, h3⟩
        refine ⟨h1, h2, ?_⟩
        intro z hz
        rcases List.mem_cons.1 hz with rfl | hzt
        · exact le_trans h2 (le_of_not_lt hlt)
        · exact h3 z hzt

/-- `np.argmin` points at a least element: the value at the returned
index is below every element of the list. -/
theorem argminIdx_le (l : List ℚ) :
    ∀ x ∈ l, l.getD (argminIdx l) 0 ≤ x := by
  intro x hx
  cases l with
  | nil => simp at hx
  | cons a t =>
      have hspec := argminAux_spec t 1 (0, a) (a :: t) (by simp) (by simp)
      rcases hspec with ⟨h1, h2, h3⟩
      unfold argminIdx argminP
      rw [h1]
      rcases List.mem_cons.1 hx with rfl | hxt
      · exact h2
      · exact h3 x hxt

/-! ### Deskew theorems -/

/-- C6 (amended): the deskewing stage is total and, when the Hough stage
finds no candidate segment (no result at all, or none passing the
near-horizontal filter), `detect_header_line` returns the darkest-row
fallback: a horizontal segment at the band row of least mean intensity
(`argminIdx` really is a least row), and — provided the image is at
least 20 pixels wide, so that the fallback's right endpoint `x = W - 10`
is not left of its left endpoint `x = 10` — the axis-fit deskew angle is
exactly 0.  In `preprocess.py`, `coarse_deskew_by_header` likewise
reports angle 0 when `cv2.HoughLines` returns nothing. -/
theorem deskew_fallback_behavior (W Hh : ℕ) (gray : List (List ℚ))
    (segs : Option (List SegZ))
    (hfb : segs = none ∨ ∃ sl, segs = some sl ∧ headerS Hh sl = []) :
    detect_header_line W Hh gray segs = headerFallback W Hh gray
    ∧ (headerFallback W Hh gray).1.2 = (headerY0 Hh : ℚ) +
        (argminIdx ((headerBand Hh gray).map rowMean) : ℚ)
    ∧ (∀ v ∈ (headerBand Hh gray).map rowMean,
        ((headerBand Hh gray).map rowMean).getD
          (argminIdx ((headerBand Hh gray).map rowMean)) 0 ≤ v)
    ∧ (20 ≤ W → axisfit_deskew_angle W Hh gray segs = 0)
    ∧ coarse_deskew_angle none 25 = 0 := by
  have hdet : detect_header_line W Hh gray segs = headerFallback W Hh gray := by
    rcases hfb with rfl | ⟨sl, rfl, hS⟩
    · rfl
    · unfold detect_header_line
      dsimp only
      rw [if_pos hS]
  refine ⟨hdet, rfl, argminIdx_le _, ?_, rfl⟩
  intro hW
  unfold axisfit_deskew_angle
  rw [hdet]
  unfold headerFallback deskewAngleDeg
  dsimp only
  have hy0 : ((W : ℚ) - 10 - 10 : ℚ) = (W : ℚ) - 20 := by ring
  rw [sub_self]
  push_cast
  rcases lt_or_eq_of_le (show (20 : ℝ) ≤ (W : ℝ) by exact_mod_cast hW) with h | h
  · unfold np_atan2
    rw [if_pos (by linarith : (0 : ℝ) < (W : ℝ) - 10 - 10)]
    simp [Real.arctan_zero]
  · unfold np_atan2
    rw [if_neg (by linarith : ¬ (0 : ℝ) < (W : ℝ) - 10 - 10),
        if_neg (by linarith : ¬ ((W : ℝ) - 10 - 10) < 0)]
    simp

/-- C6 counterexample: for a 15-pixel-wide image the fallback's right
endpoint `x = W - 10 = 5` lies left of its left endpoint `x = 10`, so
`np.degrees(np.arctan2(0, -5)) = 180`: the deskewer reports angle 180,
not 0, and (|180| > 0.1) rotates the page upside down. -/
theorem deskew_fallback_angle_cex :
    detect_header_line 15 100 [] none = ((10, 2), (5, 2))
    ∧ axisfit_deskew_angle 15 100 [] none = 180
    ∧ (180 : ℝ) ≠ 0 := by
  have hdet : detect_header_line 15 100 [] none = ((10, 2), (5, 2)) := by
    show headerFallback 15 100 [] = ((10, 2), (5, 2))
    norm_num [headerFallback, headerY0, headerBand, pyInt, argminIdx,
      argminP, rowMean]
    simp
  refine ⟨hdet, ?_, by norm_num⟩
  unfold axisfit_deskew_angle
  rw [hdet]
  unfold deskewAngleDeg np_atan2
  norm_num
  field_simp

/-- Witness for the deskew fallback behaviour: a 20-pixel-wide image
with no Hough result. -/
theorem deskew_fallback_behavior_witness :
    ((none : Option (List SegZ)) = none ∨
      ∃ sl, (none : Option (List SegZ)) = some sl ∧ headerS 100 sl = [])
    ∧ (detect_header_line 20 100 [[3], [1], [2]] none =
        headerFallback 20 100 [[3], [1], [2]]
      ∧ (headerFallback 20 100 [[3], [1], [2]]).1.2 = (headerY0 100 : ℚ) +
          (argminIdx ((headerBand 100 [[3], [1], [2]]).map rowMean) : ℚ)
      ∧ (∀ v ∈ (headerBand 100 [[3], [1], [2]]).map rowMean,
          ((headerBand 100 [[3], [1], [2]]).map rowMean).getD
            (argminIdx ((headerBand 100 [[3], [1], [2]]).map rowMean)) 0 ≤ v)
      ∧ (20 ≤ 20 → axisfit_deskew_angle 20 100 [[3], [1], [2]] none = 0)
      ∧ coarse_deskew_angle none 25 = 0) :=
  ⟨Or.inl rfl,
    deskew_fallback_behavior 20 100 [[3], [1], [2]] none (Or.inl rfl)⟩

/-- C7 (amended): in `preprocess.py` the derived rotation is clipped to
`±max_rotate` (default 25), so the coarse deskew never rotates a page by
more than 25 degrees in either direction; `align_omr_axisfit.py` applies
no such clamp (see the counterexample exceeding 25 degrees). -/
theorem coarse_deskew_angle_clamped (lines : Option (List (ℝ × ℝ))) :
    |coarse_deskew_angle lines 25| ≤ 25 := by
  cases lines with
  | none => simp [coarse_deskew_angle]
  | some l =>
      unfold coarse_deskew_angle
      dsimp only
      cases hbt : (bestThetaW l).1 with
      | none => simp
      | some θ =>
          dsimp only
          unfold npClip
          rw [abs_le]
          exact ⟨le_min (le_max_right _ _) (by norm_num), min_le_right _ _⟩

/-- C7 counterexample: on a 130×500 image, three Hough segments — each
of slope `1/19 < 0.08`, staggered upward within the clustering
tolerances — form a single cluster whose least-squares line has slope
`2109/3971 ≈ 0.531 > tan 25°`, so the axis-fit deskewer derives (and
applies, unclamped) a rotation greater than 25 degrees. -/
theorem axisfit_deskew_exceeds_25_cex :
    25 < axisfit_deskew_angle 130 500 [] (some exC7segs) := by
  have hS : headerS 500 exC7segs =
      [SegQ.mk 19 59 38 60, SegQ.mk 0 45 19 46, SegQ.mk 38 72 57 73] := by
    norm_num [headerS, exC7segs, headerY0, pyInt, List.filterMap, abs]
    simp
    all_goals norm_num
  have hfold : ([SegQ.mk 19 59 38 60, SegQ.mk 0 45 19 46,
      SegQ.mk 38 72 57 73].foldl insertSeg []) = [exC7cluster] := by
    norm_num [insertSeg, insertSegGo, exC7cluster, abs]
  have hLpos : (0 : ℝ) ≤ clusterLsum exC7cluster := by
    unfold clusterLsum
    simp only [exC7cluster, List.map, List.sum_cons, List.sum_nil]
    positivity
  have hbest : (bestCluster [exC7cluster]).1 = some exC7cluster := by
    unfold bestCluster
    simp only [List.foldl]
    rw [if_pos (by linarith : (-1 : ℝ) < clusterLsum exC7cluster)]
  have hdet : detect_header_line 130 500 [] (some exC7segs) =
      headerEndpoints 130 exC7cluster := by
    unfold detect_header_line
    dsimp only
    rw [hS, if_neg (by simp), hfold, hbest]
  have hdx : (headerEndpoints 130 exC7cluster).2.1 -
      (headerEndpoints 130 exC7cluster).1.1 = 47 := by
    norm_num [headerEndpoints, lstsqLine, exC7cluster, minQ, maxQ,
      List.flatMap]
  have hdy : (headerEndpoints 130 exC7cluster).2.2 -
      (headerEndpoints 130 exC7cluster).1.2 = 99123 / 3971 := by
    norm_num [headerEndpoints, lstsqLine, exC7cluster, minQ, maxQ,
      List.flatMap]
  have harctan : (25 : ℝ) * Real.pi / 180 < Real.arctan (2109 / 3971) := by
    have hπu : Real.pi < 3.15 := Real.pi_lt_d2
    have hπl : 3 < Real.pi := Real.pi_gt_three
    have hxpos : (0 : ℝ) < 25 * Real.pi / 180 := by nlinarith
    have hxu : (25 : ℝ) * Real.pi / 180 < 0.4375 := by nlinarith
    have harange1 : -(Real.pi / 2) < 25 * Real.pi / 180 := by nlinarith
    have harange2 : (25 : ℝ) * Real.pi / 180 < Real.pi / 2 := by nlinarith
    have htan : Real.tan (25 * Real.pi / 180) < 2109 / 3971 := by
      rw [Real.tan_eq_sin_div_cos]
      have hsin : Real.sin (25 * Real.pi / 180) < 25 * Real.pi / 180 :=
        Real.sin_lt hxpos
      have hcos : (1 : ℝ) - (25 * Real.pi / 180) ^ 2 / 2 ≤
          Real.cos (25 * Real.pi / 180) := Real.one_sub_sq_div_two_le_cos
      have hcospos : (0 : ℝ) < Real.cos (25 * Real.pi / 180) := by nlinarith
      rw [div_lt_iff hcospos]
      nlinarith
    calc (25 : ℝ) * Real.pi / 180
        = Real.arctan (Real.tan (25 * Real.pi / 180)) :=
          (Real.arctan_tan harange1 harange2).symm
      _ < Real.arctan (2109 / 3971) := Real.arctan_strictMono htan
  have hπpos := Real.pi_pos
  unfold axisfit_deskew_angle
  dsimp only
  rw [hdet]
  unfold deskewAngleDeg
  rw [hdy, hdx]
  push_cast
  unfold np_atan2
  rw [if_pos (by norm_num : (0 : ℝ) < 47)]
  rw [show ((99123 : ℝ) / 3971) / 47 = 2109 / 3971 by norm_num]
  rw [show Real.arctan ((2109 : ℝ) / 3971) * (180 / Real.pi) =
      Real.arctan ((2109 : ℝ) / 3971) * 180 / Real.pi from by ring]
  rw [lt_div_iff hπpos]
  linarith

/-! ### Median-of-four lemmas -/

/-- `np_median4` ignores the order within the first pair. -/
theorem np_median4_comm1 (a b c d : ℝ) :
    np_median4 a b c d = np_median4 b a c d := by
  unfold np_median4
  rw [max_comm a b, min_comm a b]
  ring

/-- `np_median4` ignores the order within the second pair. -/
theorem np_median4_comm2 (a b c d : ℝ) :
    np_median4 a b c d = np_median4 a b d c := by
  unfold np_median4
  rw [max_comm c d, min_comm c d]
  ring

/-- `np_median4` ignores the order of the two pairs. -/
theorem np_median4_swap_pairs (a b c d : ℝ) :
    np_median4 a b c d = np_median4 c d a b := by
  unfold np_median4
  rw [max_comm (max a b) (max c d), min_comm (min a b) (min c d)]
  ring

/-- Sorted-quadruple reading of `np_median4` when both pairs are sorted
and the first starts lowest. -/
theorem np_median4_aux (a b c d : ℝ) (hab : a ≤ b) (hcd : c ≤ d)
    (hac : a ≤ c) :
    ∃ w x y z : ℝ, [a, b, c, d].Perm [w, x, y, z] ∧ w ≤ x ∧ x ≤ y ∧ y ≤ z ∧
      np_median4 a b c d = (x + y) / 2 := by
  have hmin : min (min a b) (min c d) = a := by
    rw [min_eq_left hab, min_eq_left hcd]
    exact min_eq_left hac
  rcases le_total b c with hbc | hcb
  · refine ⟨a, b, c, d, List.Perm.refl _, hab, hbc, hcd, ?_⟩
    have hmax : max (max a b) (max c d) = d := by
      rw [max_eq_right hab, max_eq_right hcd]
      exact max_eq_right (le_trans hbc hcd)
    unfold np_median4
    rw [hmax, hmin]
    ring
  · rcases le_total b d with hbd | hdb
    · refine ⟨a, c, b, d, List.Perm.cons a (List.Perm.swap c b [d]),
        hac, hcb, hbd, ?_⟩
      have hmax : max (max a b) (max c d) = d := by
        rw [max_eq_right hab, max_eq_right hcd]
        exact max_eq_right hbd
      unfold np_median4
      rw [hmax, hmin]
      ring
    · refine ⟨a, c, d, b, List.Perm.cons a ((List.Perm.swap c b [d]).trans
        (List.Perm.cons c (List.Perm.swap d b []))), hac, hcd, hdb, ?_⟩
      have hmax : max (max a b) (max c d) = b := by
        rw [max_eq_right hab, max_eq_right hcd]
        exact max_eq_left hdb
      unfold np_median4
      rw [hmax, hmin]
      ring

/-- Sorted-quadruple reading when both pairs are sorted. -/
theorem np_median4_pairs (a b c d : ℝ) (hab : a ≤ b) (hcd : c ≤ d) :
    ∃ w x y z : ℝ, [a, b, c, d].Perm [w, x, y, z] ∧ w ≤ x ∧ x ≤ y ∧ y ≤ z ∧
      np_median4 a b c d = (x + y) / 2 := by
  rcases le_total a c with hac | hca
  · exact np_median4_aux a b c d hab hcd hac
  · rcases np_median4_aux c d a b hcd hab hca with
      ⟨w, x, y, z, hperm, h1, h2, h3, hmed⟩
    refine ⟨w, x, y, z, ?_, h1, h2, h3, ?_⟩
    · exact (@List.perm_append_comm _ [a, b] [c, d]).trans hperm
    · rw [np_median4_swap_pairs]
      exact hmed

/-- `np_median4 a b c d` is the mean of the two middle order statistics
of `{a, b, c, d}`: there is a sorted rearrangement whose middle pair
averages to it.  This justifies reading `(sum - max - min)/2` as
`np.median` of the four residuals. -/
theorem np_median4_is_middle_pair (a b c d : ℝ) :
    ∃ w x y z : ℝ, [a, b, c, d].Perm [w, x, y, z] ∧ w ≤ x ∧ x ≤ y ∧ y ≤ z ∧
      np_median4 a b c d = (x + y) / 2 := by
  rcases le_total a b with hab | hba
  · rcases le_total c d with hcd | hdc
    · exact np_median4_pairs a b c d hab hcd
    · rcases np_median4_pairs a b d c hab hdc with
        ⟨w, x, y, z, hperm, h1, h2, h3, hmed⟩
      refine ⟨w, x, y, z, ?_, h1, h2, h3, ?_⟩
      · exact (List.Perm.cons a (List.Perm.cons b
          (List.Perm.swap d c []))).trans hperm
      · rw [np_median4_comm2]
        exact hmed
  · rcases le_total c d with hcd | hdc
    · rcases np_median4_pairs b a c d hba hcd with
        ⟨w, x, y, z, hperm, h1, h2, h3, hmed⟩
      refine ⟨w, x, y, z, ?_, h1, h2, h3, ?_⟩
      · exact (List.Perm.swap b a [c, d]).trans hperm
      · rw [np_median4_comm1]
        exact hmed
    · rcases np_median4_pairs b a d c hba hdc with
        ⟨w, x, y, z, hperm, h1, h2, h3, hmed⟩
      refine ⟨w, x, y, z, ?_, h1, h2, h3, ?_⟩
      · exact ((List.Perm.swap b a [c, d]).trans
          (List.Perm.cons b (List.Perm.cons a
            (List.Perm.swap d c [])))).trans hperm
      · rw [np_median4_comm1, np_median4_comm2]
        exact hmed

/-! ### Axis-fit transform theorems -/

/-- C8 (amended): the axis-fit transform's x-scale is the clamped ratio
of the epsilon-guarded header lengths `(Lt + 1e-6)/(Lp + 1e-6)`, its
y-scale the clamped ratio of the epsilon-guarded dash spans, its matrix
carries zero shear, and each translation component is the median —
the mean of the two middle order statistics — of the four per-landmark
residuals (template coordinate minus scale times page coordinate). -/
theorem fit_scale_translate_spec (page templ : AxisFids)
    (lo1 hi1 lo2 hi2 : ℝ) :
    (fit_scale_translate page templ lo1 hi1 lo2 hi2).sx =
      clampR ((hypotR ((templ.line_R.1 - templ.line_L.1 : ℚ) : ℝ)
          ((templ.line_R.2 - templ.line_L.2 : ℚ) : ℝ) + 1 / 1000000) /
        (hypotR ((page.line_R.1 - page.line_L.1 : ℚ) : ℝ)
          ((page.line_R.2 - page.line_L.2 : ℚ) : ℝ) + 1 / 1000000)) lo1 hi1
    ∧ (fit_scale_translate page templ lo1 hi1 lo2 hi2).sy =
      clampR ((|((templ.dash_bottom.2 - templ.dash_top.2 : ℚ) : ℝ)| +
          1 / 1000000) /
        (|((page.dash_bottom.2 - page.dash_top.2 : ℚ) : ℝ)| + 1 / 1000000))
        lo2 hi2
    ∧ (fit_scale_translate page templ lo1 hi1 lo2 hi2).M.b = 0
    ∧ (fit_scale_translate page templ lo1 hi1 lo2 hi2).M.c = 0
    ∧ (∃ w x y z : ℝ,
        [(templ.line_L.1 : ℝ) -
            (fit_scale_translate page templ lo1 hi1 lo2 hi2).sx *
            (page.line_L.1 : ℝ),
          (templ.line_R.1 : ℝ) -
            (fit_scale_translate page templ lo1 hi1 lo2 hi2).sx *
            (page.line_R.1 : ℝ),
          (templ.dash_top.1 : ℝ) -
            (fit_scale_translate page templ lo1 hi1 lo2 hi2).sx *
            (page.dash_top.1 : ℝ),
          (templ.dash_bottom.1 : ℝ) -
            (fit_scale_translate page templ lo1 hi1 lo2 hi2).sx *
            (page.dash_bottom.1 : ℝ)].Perm [w, x, y, z]
        ∧ w ≤ x ∧ x ≤ y ∧ y ≤ z
        ∧ (fit_scale_translate page templ lo1 hi1 lo2 hi2).tx = (x + y) / 2)
    ∧ (∃ w x y z : ℝ,
        [(templ.line_L.2 : ℝ) -
            (fit_scale_translate page templ lo1 hi1 lo2 hi2).sy *
            (page.line_L.2 : ℝ),
          (templ.line_R.2 : ℝ) -
            (fit_scale_translate page templ lo1 hi1 lo2 hi2).sy *
            (page.line_R.2 : ℝ),
          (templ.dash_top.2 : ℝ) -
            (fit_scale_translate page templ lo1 hi1 lo2 hi2).sy *
            (page.dash_top.2 : ℝ),
          (templ.dash_bottom.2 : ℝ) -
            (fit_scale_translate page templ lo1 hi1 lo2 hi2).sy *
            (page.dash_bottom.2 : ℝ)].Perm [w, x, y, z]
        ∧ w ≤ x ∧ x ≤ y ∧ y ≤ z
        ∧ (fit_scale_translate page templ lo1 hi1 lo2 hi2).ty = (x + y) / 2) := by
  refine ⟨rfl, rfl, rfl, rfl, ?_, ?_⟩
  · exact np_median4_is_middle_pair _ _ _ _
  · exact np_median4_is_middle_pair _ _ _ _

/-- C8 counterexample to the claim's unguarded ratio: with a page header
of length 10 and a template header of length 9 (a ratio of 0.9, strictly
inside the clamp range), the code's x-scale is
`(9 + 1e-6)/(10 + 1e-6) = 9000001/10000001 ≠ 9/10`, so it is not equal
to the clamped ratio of the header-line lengths themselves. -/
theorem fit_sx_guard_cex :
    (fit_scale_translate exPageFids exTemplFids (8 / 10) (5 / 4) (8 / 10)
        (5 / 4)).sx ≠
      clampR (hypotR ((exTemplFids.line_R.1 - exTemplFids.line_L.1 : ℚ) : ℝ)
          ((exTemplFids.line_R.2 - exTemplFids.line_L.2 : ℚ) : ℝ) /
        hypotR ((exPageFids.line_R.1 - exPageFids.line_L.1 : ℚ) : ℝ)
          ((exPageFids.line_R.2 - exPageFids.line_L.2 : ℚ) : ℝ))
        (8 / 10) (5 / 4) := by
  have h9 : hypotR ((exTemplFids.line_R.1 - exTemplFids.line_L.1 : ℚ) : ℝ)
      ((exTemplFids.line_R.2 - exTemplFids.line_L.2 : ℚ) : ℝ) = 9 := by
    unfold hypotR
    norm_num [exTemplFids]
    rw [show (81 : ℝ) = 9 ^ 2 by norm_num]
    exact Real.sqrt_sq (by norm_num)
  have h10 : hypotR ((exPageFids.line_R.1 - exPageFids.line_L.1 : ℚ) : ℝ)
      ((exPageFids.line_R.2 - exPageFids.line_L.2 : ℚ) : ℝ) = 10 := by
    unfold hypotR
    norm_num [exPageFids]
    rw [show (100 : ℝ) = 10 ^ 2 by norm_num]
    exact Real.sqrt_sq (by norm_num)
  have hcode : (fit_scale_translate exPageFids exTemplFids (8 / 10) (5 / 4)
      (8 / 10) (5 / 4)).sx = 9000001 / 10000001 := by
    unfold fit_scale_translate
    dsimp only
    rw [h9, h10]
    unfold clampR
    rw [min_eq_right (by norm_num), max_eq_right (by norm_num)]
    norm_num
  rw [hcode, h9, h10]
  unfold clampR
  rw [min_eq_right (by norm_num), max_eq_right (by norm_num)]
  norm_num

end FormScanner
